import Mathlib

/-!
Schema registry: the versioned store of `bolt.go`.

A shallow embedding of `service` (bolt.go), of the types of `service.go`, and of
`errorEncoder` and the request decoders of `transport/http.go`.

* The bolt database is a value: the top-level bucket `schema` is absent or holds one
  nested bucket per schema id; a nested bucket is a list of key/value pairs kept in the
  cursor's order, the byte-lexicographic order of the keys.
* A stored value is the JSON document of a `Schema`. The model keeps the record the
  document decodes to (`marshal`): on a definition of JSON-decoded data that is the
  record itself, a Go integer comes back as a `float64`, and a definition with a value
  that `json.Marshal` rejects has no document.
* `time.Now().UTC()` is an argument of the operations that read the clock.
* A Go panic is an outcome of its own (`Result.panic`); a write transaction that does
  not return `nil` is rolled back, so the database is then the one before the call.
* The storage engine's own failures (I/O, size limits) are outside the model.
* `sort.Strings` is an insertion sort by the order of the strings' bytes; the decoder of
  encoding/json is an argument of the request decoders.
-/

namespace SchemaRegistry

/-! ## Bytes and the cursor order -/

/-- A byte slice; every element is below 256. -/
abbrev Bytes := List Nat

/-- The type `[]string`. -/
abbrev Strings := List String

/-- The test `bytes.Compare(a, b) < 0`: the order in which a bucket's cursor walks keys. -/
def bytesLt : Bytes → Bytes → Bool
  | [], [] => false
  | [], _ :: _ => true
  | _ :: _, [] => false
  | a :: as, b :: bs => if a < b then true else if b < a then false else bytesLt as bs

/-- The bytes of a Go string, one number per character (the order of UTF-8 byte
sequences is the order of the code points). -/
def strBytes (s : String) : Bytes := s.data.map Char.toNat

/-- The constant `binary.MaxVarintLen32`. -/
def MaxVarintLen32 : Nat := 5

/-- The width of Go's `uint` on the 64-bit platforms the registry is built for. -/
def uintBits : Nat := 64

/-- The function `binary.PutUvarint` writing into a buffer with `room` bytes left:
`for x >= 0x80 { buf[i] = byte(x) | 0x80; x >>= 7; i++ }; buf[i] = byte(x)`.
Writing past the end of the buffer panics (`none`). -/
def PutUvarint : Nat → Nat → Option Bytes
  | 0, _ => none
  | room + 1, x =>
    if x < 0x80 then some [x % 256]
    else (PutUvarint room (x >>> 7)).map (fun rest => ((x % 256) ||| 0x80) :: rest)

/-- The function `itob`: the varint bytes of a version, in a buffer of
`binary.MaxVarintLen32` bytes; `none` is the panic of a value that does not fit. -/
def itob (v : Nat) : Option Bytes :=
  PutUvarint MaxVarintLen32 (v % 2 ^ uintBits)

/-! ## The types of service.go -/

/-- A Go value in an `interface{}` of a definition. The first six are the values
`json.Unmarshal` produces: `nil`, a `bool`, a `float64` (kept as its literal), a `string`,
a `[]interface{}` and a `map[string]interface{}`. A caller in Go can also pass values of
other types: `int` is a Go integer, which `json.Marshal` writes as a number, and
`unsupported` a value `json.Marshal` rejects (a channel, a function, a NaN). -/
inductive Value where
  | null : Value
  | bool (b : Bool) : Value
  | number (lit : String) : Value
  | string (s : String) : Value
  | array (xs : List Value) : Value
  | object (kv : List (String × Value)) : Value
  | int (n : Int) : Value
  | unsupported : Value

mutual

/-- The value `json.Unmarshal` decodes into an `interface{}` from the document that
`json.Marshal` writes for a value; `none` when `json.Marshal` returns an error. A Go
integer comes back as the `float64` of its decimal text. -/
def Value.decoded : Value → Option Value
  | .null => some .null
  | .bool b => some (.bool b)
  | .number lit => some (.number lit)
  | .string s => some (.string s)
  | .array xs => (Value.decodedAll xs).map Value.array
  | .object kv => (Value.decodedFields kv).map Value.object
  | .int n => some (.number (toString n))
  | .unsupported => none

/-- The elements of an array, decoded from their document. -/
def Value.decodedAll : List Value → Option (List Value)
  | [] => some []
  | x :: xs =>
    match Value.decoded x, Value.decodedAll xs with
    | some y, some ys => some (y :: ys)
    | _, _ => none

/-- The entries of a map, decoded from their document. -/
def Value.decodedFields : List (String × Value) → Option (List (String × Value))
  | [] => some []
  | (k, v) :: rest =>
    match Value.decoded v, Value.decodedFields rest with
    | some w, some ws => some ((k, w) :: ws)
    | _, _ => none

end

/-- The type `map[string]interface{}` of a definition. The store never looks inside. -/
abbrev Def := List (String × Value)

/-- Go `error` values: the five sentinels of service.go, and any other error (one a
compiler, a validator or `json.Unmarshal` returns) by its message. -/
inductive Error where
  | ErrSchemaExists : Error
  | ErrSchemaDoesNotExist : Error
  | ErrSchemaTypeUnknown : Error
  | ErrSchemaIdRequired : Error
  | ErrSchemaTypeRequired : Error
  | other (msg : String) : Error
  deriving DecidableEq, Repr

/-- The outcome of a call: a value, a returned error, or a panic. -/
inductive Result (α : Type) where
  | ok (a : α) : Result α
  | err (e : Error) : Result α
  | panic (msg : String) : Result α
  deriving DecidableEq

/-- The interface `Validator`: violations, or an operational error. -/
structure Validator where
  Validate : Bytes → Except Error (List String)

/-- The interface `Compiler`. -/
structure Compiler where
  Compile : Def → Except Error Validator

/-- The struct `Schema`; `Typ` is the field `Type`, `Time` a UTC instant. -/
structure Schema where
  ID : String
  Typ : String
  Time : Nat
  Version : Nat
  Def : Def

/-- The zero value `Schema{}` of `var x Schema`. -/
def Schema.zero : Schema := { ID := "", Typ := "", Time := 0, Version := 0, Def := [] }

/-- The call `json.Marshal(x)` on a record. The document is kept as the record that
`json.Unmarshal` decodes from it: the same id, type, time and version, and the definition
decoded from its document. `none` is the error of a definition that holds a value
`json.Marshal` rejects. -/
def marshal (x : Schema) : Option Schema :=
  (Value.decodedFields x.Def).map (fun d => { x with Def := d })

/-- The error `json.Marshal` returns for a value it rejects (the message names the Go
type, left out here). -/
def marshalError : Error := .other "json: unsupported type"

/-! ## The store -/

/-- Insert or replace a key in a list kept in the order `lt`. -/
def put {κ β : Type} [DecidableEq κ] (lt : κ → κ → Bool) (k : κ) (v : β) :
    List (κ × β) → List (κ × β)
  | [] => [(k, v)]
  | (k', v') :: rest =>
    if k = k' then (k, v) :: rest
    else if lt k k' then (k, v) :: (k', v') :: rest
    else (k', v') :: put lt k v rest

/-- Exact-key lookup. -/
def get {κ β : Type} [DecidableEq κ] (k : κ) : List (κ × β) → Option β
  | [] => none
  | (k', v') :: rest => if k = k' then some v' else get k rest

/-- Remove a key. -/
def del {κ β : Type} [DecidableEq κ] (k : κ) (l : List (κ × β)) : List (κ × β) :=
  l.filter (fun e => decide (e.1 ≠ k))

/-- A nested bucket of one schema id: version keys and the stored records. -/
abbrev Bucket := List (Bytes × Schema)

/-- The top-level bucket `schema`: the nested buckets by id, in the order of the ids'
bytes. -/
abbrev Root := List (String × Bucket)

/-- The database file: `none` until the top-level bucket is created. -/
abbrev DB := Option Root

/-- The order of the nested buckets' names. -/
def idLt (a b : String) : Bool := bytesLt (strBytes a) (strBytes b)

/-- The value under `b.Cursor().Last()`: `nil` in an empty bucket. -/
def Bucket.lastValue (b : Bucket) : Option Schema := b.getLast?.map Prod.snd

/-- The call `json.Unmarshal(v, &x)` on a stored value, a document written by `marshal`;
`nil` is not a JSON document. -/
def unmarshal : Option Schema → Result Schema
  | none => .err (.other "unexpected end of JSON input")
  | some x => .ok x

/-- The call `db.Update(fn)`: the transaction commits when `fn` returns `nil` and is
rolled back otherwise. -/
def DB.Update {α : Type} (db : DB) (fn : DB → Result (α × DB)) : Result α × DB :=
  match fn db with
  | .ok (a, db') => (.ok a, db')
  | .err e => (.err e, db)
  | .panic m => (.panic m, db)

/-- The struct `service`: the database and the compilers by type name. -/
structure service where
  db : DB
  types : List (String × Compiler)

/-- The function `NewService`. -/
def NewService (db : DB) : service := { db := db, types := [] }

/-- The method `Register`: `s.types[n] = c`. -/
def service.Register (s : service) (n : String) (c : Compiler) : service :=
  { s with types := (n, c) :: del n s.types }

/-- The check `x.ID == ""` that ends `Get` and `GetVersion`. -/
def found : Result Schema → Result Schema
  | .ok x => if x.ID = "" then .err .ErrSchemaDoesNotExist else .ok x
  | r => r

/-- The method `Get`. -/
def service.Get (s : service) (id : String) : Result Schema :=
  found <|
    match s.db with
    | none => .ok Schema.zero
    | some root =>
      match get id root with
      | none => .ok Schema.zero
      | some b => unmarshal b.lastValue

/-- The method `GetVersion`. -/
def service.GetVersion (s : service) (id : String) (ver : Nat) : Result Schema :=
  found <|
    match s.db with
    | none => .ok Schema.zero
    | some root =>
      match get id root with
      | none => .ok Schema.zero
      | some b =>
        match itob ver with
        | none => .panic "index out of range"
        | some k =>
          match get k b with
          | none => .ok Schema.zero
          | some x => .ok x

/-- The method `Create`; `now` is `time.Now().UTC()`. -/
def service.Create (s : service) (now : Nat) (id typ : String) (d : Def) :
    Result Schema × service :=
  if id = "" then (.err .ErrSchemaIdRequired, s)
  else if typ = "" then (.err .ErrSchemaTypeRequired, s)
  else
    match get typ s.types with
    | none => (.err .ErrSchemaTypeUnknown, s)
    | some c =>
      match c.Compile d with
      | .error e => (.err e, s)
      | .ok _ =>
        let x : Schema := { ID := id, Typ := typ, Time := now, Version := 1, Def := d }
        match marshal x with
        | none => (.panic "json: unsupported type", s)
        | some xb =>
          let r := DB.Update s.db (fun db =>
            let root := db.getD []
            match get id root with
            | some _ => .err .ErrSchemaExists
            | none =>
              match itob x.Version with
              | none => .panic "index out of range"
              | some k => .ok (x, some (put idLt id (put bytesLt k xb []) root)))
          (r.1, { s with db := r.2 })

/-- The method `Update`; `now` is `time.Now().UTC()`. -/
def service.Update (s : service) (now : Nat) (id : String) (d : Def) :
    Result Schema × service :=
  if id = "" then (.err .ErrSchemaIdRequired, s)
  else
    let r := DB.Update s.db (fun db =>
      match db with
      | none => .err .ErrSchemaDoesNotExist
      | some root =>
        match get id root with
        | none => .err .ErrSchemaDoesNotExist
        | some b =>
          match unmarshal b.lastValue with
          | .err e => .err e
          | .panic m => .panic m
          | .ok x =>
            match get x.Typ s.types with
            | none => .panic "nil pointer dereference"
            | some c =>
              match c.Compile d with
              | .error e => .err e
              | .ok _ =>
                let x' : Schema :=
                  { x with Time := now, Version := (x.Version + 1) % 2 ^ uintBits, Def := d }
                match marshal x' with
                | none => .err marshalError
                | some xb =>
                  match itob x'.Version with
                  | none => .panic "index out of range"
                  | some k => .ok (x', some (put idLt id (put bytesLt k xb b) root)))
    (r.1, { s with db := r.2 })

/-- The method `Delete`. -/
def service.Delete (s : service) (id : String) : Result Unit × service :=
  let r := DB.Update s.db (fun db =>
    match db with
    | none => .err .ErrSchemaDoesNotExist
    | some root =>
      match get id root with
      | none => .err .ErrSchemaDoesNotExist
      | some _ => .ok ((), some (del id root)))
  (r.1, { s with db := r.2 })

/-- The method `Validate`. -/
def service.Validate (s : service) (id : String) (val : Bytes) : Result (List String) :=
  let r : Result Schema :=
    match s.db with
    | none => .err .ErrSchemaDoesNotExist
    | some root =>
      match get id root with
      | none => .err .ErrSchemaDoesNotExist
      | some b => unmarshal b.lastValue
  match r with
  | .err e => .err e
  | .panic m => .panic m
  | .ok x =>
    match get x.Typ s.types with
    | none => .panic "nil pointer dereference"
    | some c =>
      match c.Compile x.Def with
      | .error e => .err e
      | .ok v =>
        match v.Validate val with
        | .error e => .err e
        | .ok errs => .ok errs

/-- The method `List`: the names of the nested buckets, in cursor order. -/
def service.List (s : service) : Result Strings :=
  match s.db with
  | none => .ok []
  | some root => .ok (root.map Prod.fst)

/-- The nested bucket `tx.Bucket(schemaBucket).Bucket([]byte(id))`, when both exist:
the id exists in the store exactly when this is not `none`. -/
def DB.bucket (db : DB) (id : String) : Option Bucket :=
  match db with
  | none => none
  | some root => get id root

/-! ## The shape of a version history -/

/-- The key `itob` gives a version up to 256, written out. -/
def verKey (v : Nat) : Bytes :=
  if v < 128 then [v] else if v < 256 then [v, 1] else [128, 2]

/-- The versions `1..N` (`N ≤ 256`) in the cursor order of their keys: ascending up to
255, and 256 between 128 and 129. -/
def layout (N : Nat) : List Nat :=
  if N ≤ 255 then List.range' 1 N else List.range' 1 128 ++ 256 :: List.range' 129 127

/-- The version of the record under the cursor's last key in a history `1..N`. -/
def lastVer (N : Nat) : Nat := if N ≤ 255 then N else 255

/-- The number of versions after one more `Update` on a history `1..N`. -/
def nextN (N : Nat) : Nat := if N ≤ 255 then N + 1 else 256

/-- The bucket holding the record `f v` under the key of `v`, for the versions `1..N`. -/
def shape (f : Nat → Schema) (N : Nat) : Bucket :=
  (layout N).map (fun v => (verKey v, f v))

/-- The bucket of `id` is a history: for some `N` from 1 to 256 it holds, for each
version `v` of `1..N`, one record with `Version = v` and `ID = id` under the key of `v`. -/
def History (id : String) (b : Bucket) : Prop :=
  ∃ (N : Nat) (f : Nat → Schema), 1 ≤ N ∧ N ≤ 256 ∧ b = shape f N ∧
    ∀ v, (f v).Version = v ∧ (f v).ID = id

/-- Every bucket of the store is a history. -/
def StoreOK (s : service) : Prop :=
  ∀ id b, DB.bucket s.db id = some b → History id b

/-! ## Calls in sequence -/

/-- A write call with its arguments. -/
inductive Op where
  | create (now : Nat) (id typ : String) (d : Def) : Op
  | update (now : Nat) (id : String) (d : Def) : Op
  | delete (id : String) : Op

/-- The service after one write call, whatever the call returned. -/
def step (s : service) : Op → service
  | .create now id typ d => (s.Create now id typ d).2
  | .update now id d => (s.Update now id d).2
  | .delete id => (s.Delete id).2

/-- The service after a sequence of write calls, the first of the list first. -/
def run (s : service) : List Op → service
  | [] => s
  | op :: ops => run (step s op) ops

/-- The scenario of the version claims: `Create(id, typ, d 0)` at time 0, then
`Update(id, d i)` at time `i` for `i = 1, ..., n`. The result of the last call and the
service after it. -/
def createThenUpdate (s : service) (id typ : String) (d : Nat → Def) :
    Nat → Result Schema × service
  | 0 => s.Create 0 id typ (d 0)
  | n + 1 => (createThenUpdate s id typ d n).2.Update (n + 1) id (d (n + 1))

/-- The record of version `v` in that scenario: written by the call at time `v - 1`. -/
def written (id typ : String) (d : Nat → Def) (v : Nat) : Schema :=
  { ID := id, Typ := typ, Time := v - 1, Version := v, Def := d (v - 1) }

/-- A definition for the call at time `i`, with the one key `"v" ++ i`. -/
def defNo (i : Nat) : Def := [("v" ++ toString i, .null)]

/-- A new service on an empty database with one compiler, under the name "avro". -/
def oneCompiler (c : Compiler) : service := (NewService none).Register "avro" c

/-- A compiler that accepts every definition; its validator reports the names of the
definition's top-level keys as violations, whatever the input. -/
def keysCompiler : Compiler :=
  { Compile := fun d => .ok { Validate := fun _ => .ok (d.map Prod.fst) } }

/-- A compiler that rejects every definition. -/
def rejectCompiler : Compiler :=
  { Compile := fun _ => .error (.other "compiler: invalid schema") }

/-- A compiler that looks at the Go type of a value: it accepts a definition whose one
entry holds a Go integer, and rejects every other definition. -/
def intCompiler : Compiler :=
  { Compile := fun d =>
      match d with
      | [(_, .int _)] => .ok { Validate := fun _ => .ok [] }
      | _ => .error (.other "compiler: not an int") }

/-- The compilers of a registry work on the JSON form of a definition: a compiler that
accepts a definition accepts the definition decoded from its document. -/
def compilesDecoded (types : List (String × Compiler)) : Prop :=
  ∀ n c d dj w, get n types = some c → c.Compile d = .ok w →
    Value.decodedFields d = some dj → ∃ w2, c.Compile dj = .ok w2

/-! ## The registry's names -/

/-- Insert a string into a list sorted by the order of the strings' bytes. -/
def insertStr (a : String) : Strings → Strings
  | [] => [a]
  | b :: rest => if idLt b a then b :: insertStr a rest else a :: b :: rest

/-- The call `sort.Strings(a)`: the strings in increasing order of their bytes. -/
def sortStrings : Strings → Strings
  | [] => []
  | a :: rest => insertStr a (sortStrings rest)

/-- The method `Types`: the keys of `s.types`, sorted. -/
def service.Types (s : service) : Strings :=
  sortStrings (s.types.map Prod.fst)

/-- A sequence of `Register` calls, the first of the list first. -/
def registerAll (s : service) : List (String × Compiler) → service
  | [] => s
  | (n, c) :: rest => registerAll (s.Register n c) rest

/-! ## What a caller can record of the calls -/

/-- Whether a call returned without error. -/
def Result.isOk {α : Type} : Result α → Bool
  | .ok _ => true
  | _ => false

/-- The caller's record after one write call on `s`: an id enters it, with the type
passed, when `Create` succeeds, and leaves it when `Delete` succeeds. -/
def track (s : service) (acc : List (String × String)) : Op → List (String × String)
  | .create now id typ d => if (s.Create now id typ d).1.isOk then (id, typ) :: acc else acc
  | .update _ _ _ => acc
  | .delete id => if (s.Delete id).1.isOk then del id acc else acc

/-- The caller's record after a sequence of write calls starting on `s` with the record
`acc`: the ids successfully created and not deleted since, each with the type passed to
the `Create` call that created it. -/
def created (s : service) (acc : List (String × String)) : List Op → List (String × String)
  | [] => acc
  | op :: ops => created (step s op) (track s acc op) ops

/-- The store agrees with the caller's record `acc`: the names of the nested buckets are
in strictly increasing order; an id without bucket is not in the record; the bucket of an
id in the store is a history of `1..N` records (`N ≤ 256`) with that id, the recorded
type, which has a compiler, and definitions decoded from the document of a definition
that compiler accepted. -/
def Sound (s : service) (acc : List (String × String)) : Prop :=
  (∀ root, s.db = some root → (root.map Prod.fst).Pairwise (fun a b => idLt a b = true)) ∧
  (∀ id, DB.bucket s.db id = none → get id acc = none) ∧
  ∀ id b, DB.bucket s.db id = some b →
    id ≠ "" ∧ ∃ (typ : String) (c : Compiler) (N : Nat) (f : Nat → Schema),
      get id acc = some typ ∧ get typ s.types = some c ∧ 1 ≤ N ∧ N ≤ 256 ∧ b = shape f N ∧
      ∀ v, (f v).Version = v ∧ (f v).ID = id ∧ (f v).Typ = typ ∧
        (1 ≤ v → v ≤ N →
          ∃ d0 w, c.Compile d0 = .ok w ∧ Value.decodedFields d0 = some (f v).Def)

/-! ## The HTTP transport's errors (transport/http.go) -/

namespace transport

/-- Go `error` values as `errorEncoder` tells them apart: an error of the service (a
sentinel or any other plain error), `io.EOF`, a `*httpError`, and the wrapper
`httptransport.Error{Domain, Err}` (`transportError`) the server puts around the error of
a decoder or an endpoint. -/
inductive Err where
  | plain (e : Error) : Err
  | EOF : Err
  | httpError (Status : Nat) (Body : Option Value) : Err
  | transportError (Domain : String) (err : Err) : Err

/-- The body `errorEncoder` writes: nothing, `{"error": err.Error()}` for an error, or a
JSON value. -/
inductive Body where
  | none : Body
  | error (err : Err) : Body
  | value (v : Value) : Body

/-- The status and body that `errorEncoder` writes to the response. -/
structure Response where
  status : Nat
  body : Body

/-- The constants `http.StatusBadRequest`, `StatusNotFound`, `StatusConflict`,
`StatusUnprocessableEntity` and `StatusInternalServerError`. -/
def StatusBadRequest : Nat := 400
def StatusNotFound : Nat := 404
def StatusConflict : Nat := 409
def StatusUnprocessableEntity : Nat := 422
def StatusInternalServerError : Nat := 500

/-- The step `if e, ok := err.(httptransport.Error); ok { err = e.Err }`. -/
def unpack : Err → Err
  | .transportError _ e => e
  | e => e

/-- The function `errorEncoder`. -/
def errorEncoder (err : Err) : Response :=
  match unpack err with
  | .httpError st b =>
    { status := st, body := match b with | some v => .value v | none => .none }
  | .EOF => { status := StatusBadRequest, body := .none }
  | .plain .ErrSchemaDoesNotExist => { status := StatusNotFound, body := .none }
  | .plain .ErrSchemaExists => { status := StatusConflict, body := .none }
  | .plain .ErrSchemaIdRequired =>
    { status := StatusUnprocessableEntity, body := .error (.plain .ErrSchemaIdRequired) }
  | .plain .ErrSchemaTypeRequired =>
    { status := StatusUnprocessableEntity, body := .error (.plain .ErrSchemaTypeRequired) }
  | .plain .ErrSchemaTypeUnknown =>
    { status := StatusUnprocessableEntity, body := .error (.plain .ErrSchemaTypeUnknown) }
  | e => { status := StatusInternalServerError, body := .error e }

/-- The struct `createRequest`; `Typ` is the field `Type`. -/
structure createRequest where
  ID : String
  Typ : String
  Def : Def

/-- The function `decodeCreateRequest` on a request body. `Decode` is
`json.NewDecoder(r.Body).Decode(&v)` of the library encoding/json: the decoded request,
or the decoder's error. -/
def decodeCreateRequest (Decode : Bytes → Except Err createRequest) (body : Bytes) :
    Except Err createRequest :=
  match Decode body with
  | .error err => .error err
  | .ok v => .ok v

/-- The function `decodeUpdateRequest` on the id of the route and a request body.
`Decode` is `json.NewDecoder(r.Body).Decode(&v.Def)`. -/
def decodeUpdateRequest (Decode : Bytes → Except Err Def) (id : String) (body : Bytes) :
    Except Err createRequest :=
  match Decode body with
  | .error err => .error err
  | .ok d => .ok { ID := id, Typ := "", Def := d }

/-- The constant `httptransport.DomainDecode`. -/
def DomainDecode : String := "Decode"

/-- The response of the server to a request whose decoder returned an error: the server
hands `Error{Domain: DomainDecode, Err: err}` to the error encoder. -/
def decodeFailure (r : Except Err createRequest) : Option Response :=
  match r with
  | .error err => some (errorEncoder (.transportError DomainDecode err))
  | .ok _ => none

/-- The status the specification gives each error of the service: NotFound 404,
AlreadyExists 409, IdRequired, TypeRequired and TypeUnknown 422, all else 500. -/
def specStatus : SchemaRegistry.Error → Nat
  | .ErrSchemaDoesNotExist => 404
  | .ErrSchemaExists => 409
  | .ErrSchemaIdRequired => 422
  | .ErrSchemaTypeRequired => 422
  | .ErrSchemaTypeUnknown => 422
  | .other _ => 500

end transport

/-! ## Lookup after insertion and removal -/

theorem get_put_self {κ β : Type} [DecidableEq κ] (lt : κ → κ → Bool) (k : κ) (v : β)
    (l : List (κ × β)) : get k (put lt k v l) = some v := by
  induction l with
  | nil => simp [put, get]
  | cons e rest ih =>
    obtain ⟨k', v'⟩ := e
    by_cases h : k = k'
    · simp [put, get, h]
    · by_cases h2 : lt k k' = true
      · simp [put, get, h, h2]
      · simp [put, get, h, h2, ih]

theorem get_put_other {κ β : Type} [DecidableEq κ] (lt : κ → κ → Bool) (k k2 : κ) (v : β)
    (l : List (κ × β)) (hne : k2 ≠ k) : get k2 (put lt k v l) = get k2 l := by
  induction l with
  | nil => simp [put, get, hne]
  | cons e rest ih =>
    obtain ⟨k', v'⟩ := e
    by_cases h : k = k'
    · subst h
      simp [put, get, hne]
    · by_cases h2 : lt k k' = true
      · simp [put, get, h, h2, hne]
      · by_cases h3 : k2 = k'
        · simp [put, get, h, h2, h3]
        · simp [put, get, h, h2, h3, ih]

theorem get_del_self {κ β : Type} [DecidableEq κ] (k : κ) (l : List (κ × β)) :
    get k (del k l) = none := by
  induction l with
  | nil => simp [del, get]
  | cons e rest ih =>
    obtain ⟨k', v'⟩ := e
    by_cases h : k' = k
    · simpa [del, h] using ih
    · have h' : ¬ k = k' := fun e => h e.symm
      simpa [del, h, get, h'] using ih

theorem get_del_other {κ β : Type} [DecidableEq κ] (k k2 : κ) (l : List (κ × β))
    (hne : k2 ≠ k) : get k2 (del k l) = get k2 l := by
  induction l with
  | nil => simp [del, get]
  | cons e rest ih =>
    obtain ⟨k', v'⟩ := e
    by_cases h : k' = k
    · subst h
      simpa [del, get, hne] using ih
    · by_cases h3 : k2 = k'
      · simp [del, h, get, h3]
      · simpa [del, h, get, h3] using ih

theorem not_mem_keys_del {κ β : Type} [DecidableEq κ] (k : κ) (l : List (κ × β)) :
    k ∉ (del k l).map Prod.fst := by
  simp [del, List.mem_map, List.mem_filter]

/-! ## The version keys -/

/-- C1 (fails on the code): `itob` does not preserve the order of versions. Version 129
is below 256, but the key of 256 is `[128, 2]` and sorts before the key `[129, 1]` of
129, so the cursor's last key in a bucket holding both is the one of version 129. -/
theorem itob_order_broken :
    itob 129 = some [129, 1] ∧ itob 256 = some [128, 2] ∧
    bytesLt [128, 2] [129, 1] = true ∧ bytesLt [129, 1] [128, 2] = false ∧
    (Bucket.lastValue
      (put bytesLt [128, 2] { Schema.zero with ID := "a", Version := 256 }
        (put bytesLt [129, 1] { Schema.zero with ID := "a", Version := 129 } []))).map
      Schema.Version = some 129 := by
  decide

/-! ## Errors on the caller's input -/

/-- C9: `Create` with an empty id returns ErrSchemaIdRequired; with an id and an empty
type ErrSchemaTypeRequired; with an id and a type that has no compiler
ErrSchemaTypeUnknown; `Update` with an empty id returns ErrSchemaIdRequired; the
service, and with it the store, is the one before the call in all four cases. -/
theorem input_errors_first (s : service) (now : Nat) (id typ : String) (d : Def) :
    s.Create now "" typ d = (.err .ErrSchemaIdRequired, s) ∧
    (id ≠ "" → s.Create now id "" d = (.err .ErrSchemaTypeRequired, s)) ∧
    (id ≠ "" → typ ≠ "" → get typ s.types = none →
      s.Create now id typ d = (.err .ErrSchemaTypeUnknown, s)) ∧
    s.Update now "" d = (.err .ErrSchemaIdRequired, s) := by
  refine ⟨?_, ?_, ?_, ?_⟩
  · simp [service.Create]
  · intro hid
    simp [service.Create, hid]
  · intro hid htyp hreg
    simp [service.Create, hid, htyp, hreg]
  · simp [service.Update]

theorem input_errors_first_witness :
    (NewService none).Create 7 "" "avro" [] = (.err .ErrSchemaIdRequired, NewService none) ∧
    (NewService none).Create 7 "a" "" [] = (.err .ErrSchemaTypeRequired, NewService none) ∧
    (NewService none).Create 7 "a" "avro" [] =
      (.err .ErrSchemaTypeUnknown, NewService none) ∧
    (NewService none).Update 7 "" [] = (.err .ErrSchemaIdRequired, NewService none) :=
  have h := input_errors_first (NewService none) 7 "a" "avro" []
  ⟨h.1, h.2.1 (by decide), h.2.2.1 (by decide) (by decide) rfl, h.2.2.2⟩

/-! ## Update with a definition that does not compile -/

/-- C6: when `id` exists, the record under the cursor's last key has a type whose
compiler rejects `d` with the error `e`, then `Update(id, d)` returns `e` and the service
is the one before the call: `Get` and every `GetVersion` answer as before. (A bucket of
the store never has an empty name, so an existing id is not empty.) -/
theorem Update_compile_error_atomic (s : service) (now : Nat) (id : String) (d : Def)
    (b : Bucket) (x : Schema) (c : Compiler) (e : Error)
    (hid : id ≠ "") (hb : DB.bucket s.db id = some b) (hx : b.lastValue = some x)
    (hc : get x.Typ s.types = some c) (he : c.Compile d = .error e) :
    s.Update now id d = (.err e, s) ∧
    (s.Update now id d).2.Get id = s.Get id ∧
    ∀ k, (s.Update now id d).2.GetVersion id k = s.GetVersion id k := by
  have h : s.Update now id d = (.err e, s) := by
    obtain ⟨db, types⟩ := s
    cases db with
    | none => simp [DB.bucket] at hb
    | some root =>
      have hb' : get id root = some b := by simpa [DB.bucket] using hb
      have hc' : get x.Typ types = some c := hc
      simp [service.Update, DB.Update, hid, hb', hx, unmarshal, hc', he]
  refine ⟨h, ?_, ?_⟩
  · rw [h]
  · intro k
    rw [h]

theorem Update_compile_error_atomic_witness :
    let s : service :=
      { db := some [("a", [([1], { ID := "a", Typ := "avro", Time := 3, Version := 1,
                                   Def := [] })])],
        types := [("avro", rejectCompiler)] }
    s.Update 9 "a" [("type", .string "record")] =
        (.err (.other "compiler: invalid schema"), s) ∧
      (s.Update 9 "a" [("type", .string "record")]).2.Get "a" = s.Get "a" ∧
      ∀ k, (s.Update 9 "a" [("type", .string "record")]).2.GetVersion "a" k =
        s.GetVersion "a" k :=
  Update_compile_error_atomic _ 9 "a" [("type", .string "record")]
    [([1], { ID := "a", Typ := "avro", Time := 3, Version := 1, Def := [] })]
    { ID := "a", Typ := "avro", Time := 3, Version := 1, Def := [] }
    rejectCompiler (.other "compiler: invalid schema") (by decide) rfl rfl rfl rfl

/-! ## Create -/

/-- The key of version 1. -/
theorem itob_one : itob 1 = some [1] := by decide

theorem marshal_eq (x : Schema) (dj : Def) (h : Value.decodedFields x.Def = some dj) :
    marshal x = some { x with Def := dj } := by
  simp [marshal, h]

/-- C7 (counterexample): three calls of `Create` on a store without the id "a", each with
a registered type whose compiler accepts the definition. With the empty type name
registered, `Create` returns ErrSchemaTypeRequired. With a definition that holds a value
`json.Marshal` rejects, `Create` panics. With a definition that holds the Go integer 1,
`Create` returns the record with the definition passed, and `Get` returns a record whose
definition holds the `float64` 1 instead. -/
theorem Create_then_Get_fails :
    (get "" ((NewService none).Register "" keysCompiler).types = some keysCompiler ∧
      (keysCompiler.Compile []).isOk = true ∧
      (((NewService none).Register "" keysCompiler).Create 5 "a" "" []).1 =
        .err .ErrSchemaTypeRequired) ∧
    ((keysCompiler.Compile [("c", .unsupported)]).isOk = true ∧
      ((oneCompiler keysCompiler).Create 5 "a" "avro" [("c", .unsupported)]).1 =
        .panic "json: unsupported type") ∧
    ((keysCompiler.Compile [("n", .int 1)]).isOk = true ∧
      ((oneCompiler keysCompiler).Create 5 "a" "avro" [("n", .int 1)]).1 =
        .ok { ID := "a", Typ := "avro", Time := 5, Version := 1, Def := [("n", .int 1)] } ∧
      ((oneCompiler keysCompiler).Create 5 "a" "avro" [("n", .int 1)]).2.Get "a" =
        .ok { ID := "a", Typ := "avro", Time := 5, Version := 1,
              Def := [("n", .number "1")] }) := by
  refine ⟨⟨rfl, rfl, rfl⟩, ⟨rfl, rfl⟩, ⟨rfl, rfl, rfl⟩⟩

/-- C7 (amended): when `id` is not in the store, `id` and `typ` are not empty, `typ` has
a compiler, it accepts `d`, and `json.Marshal` accepts `d`, with `dj` the definition
decoded from the document of `d`, then `Create(id, typ, d)` returns the record
`{ID: id, Type: typ, Time: now, Version: 1, Def: d}`, and `Get(id)` and
`GetVersion(id, 1)` on the store after the call return the record
`{ID: id, Type: typ, Time: now, Version: 1, Def: dj}`. -/
theorem Create_then_Get (s : service) (now : Nat) (id typ : String) (d dj : Def)
    (c : Compiler) (v : Validator)
    (hid : id ≠ "") (htyp : typ ≠ "") (habs : DB.bucket s.db id = none)
    (hreg : get typ s.types = some c) (hc : c.Compile d = .ok v)
    (hm : Value.decodedFields d = some dj) :
    (s.Create now id typ d).1 =
      .ok { ID := id, Typ := typ, Time := now, Version := 1, Def := d } ∧
    (s.Create now id typ d).2.Get id =
      .ok { ID := id, Typ := typ, Time := now, Version := 1, Def := dj } ∧
    (s.Create now id typ d).2.GetVersion id 1 =
      .ok { ID := id, Typ := typ, Time := now, Version := 1, Def := dj } := by
  have hg : get id (s.db.getD []) = none := by
    cases hdb : s.db with
    | none => simp [get]
    | some root => simpa [DB.bucket, hdb] using habs
  have hcr : s.Create now id typ d =
      (.ok { ID := id, Typ := typ, Time := now, Version := 1, Def := d },
        { s with db := some (put idLt id
          (put bytesLt [1] { ID := id, Typ := typ, Time := now, Version := 1, Def := dj } [])
          (s.db.getD [])) }) := by
    simp [service.Create, DB.Update, hid, htyp, hreg, hc, hg, itob_one, marshal, hm]
  rw [hcr]
  refine ⟨rfl, ?_, ?_⟩
  · simp [service.Get, get_put_self, put, Bucket.lastValue, unmarshal, found, hid]
  · simp [service.GetVersion, get_put_self, put, get, itob_one, found, hid]

theorem Create_then_Get_witness :
    ((oneCompiler keysCompiler).Create 5 "a" "avro"
        [("type", .string "record"), ("size", .int 16)]).1 =
      .ok { ID := "a", Typ := "avro", Time := 5, Version := 1,
            Def := [("type", .string "record"), ("size", .int 16)] } ∧
    ((oneCompiler keysCompiler).Create 5 "a" "avro"
        [("type", .string "record"), ("size", .int 16)]).2.Get "a" =
      .ok { ID := "a", Typ := "avro", Time := 5, Version := 1,
            Def := [("type", .string "record"), ("size", .number "16")] } ∧
    ((oneCompiler keysCompiler).Create 5 "a" "avro"
        [("type", .string "record"), ("size", .int 16)]).2.GetVersion "a" 1 =
      .ok { ID := "a", Typ := "avro", Time := 5, Version := 1,
            Def := [("type", .string "record"), ("size", .number "16")] } :=
  Create_then_Get (oneCompiler keysCompiler) 5 "a" "avro"
    [("type", .string "record"), ("size", .int 16)]
    [("type", .string "record"), ("size", .number "16")]
    keysCompiler { Validate := fun _ => .ok ["type", "size"] } (by decide) (by decide)
    rfl rfl rfl rfl

/-- C8 (counterexample): the id "a" exists. With the empty type name registered, whose
compiler accepts the definition, `Create` returns ErrSchemaTypeRequired, not
ErrSchemaExists. With a definition that the compiler accepts and that holds a value
`json.Marshal` rejects, `Create` panics. -/
theorem Create_existing_not_rejected :
    ((DB.bucket ((((NewService none).Register "" keysCompiler).Register "avro"
        keysCompiler).Create 5 "a" "avro" []).2.db "a").isSome = true ∧
      (((((NewService none).Register "" keysCompiler).Register "avro"
        keysCompiler).Create 5 "a" "avro" []).2.Create 6 "a" "" []).1 =
        .err .ErrSchemaTypeRequired) ∧
    ((DB.bucket ((oneCompiler keysCompiler).Create 5 "a" "avro" []).2.db "a").isSome = true ∧
      (keysCompiler.Compile [("c", .unsupported)]).isOk = true ∧
      (((oneCompiler keysCompiler).Create 5 "a" "avro" []).2.Create 6 "a" "avro"
        [("c", .unsupported)]).1 = .panic "json: unsupported type") := by
  refine ⟨⟨rfl, rfl⟩, ⟨rfl, rfl, rfl⟩⟩

/-- C8 (amended): when `id` exists, `typ` is not empty and has a compiler that accepts
`d`, and `json.Marshal` accepts `d`, then `Create(id, typ, d)` returns ErrSchemaExists and
the service is the one before the call, so `Get` and every `GetVersion` answer as before.
(A bucket of the store never has an empty name, so an existing id is not empty.) -/
theorem Create_existing_rejected (s : service) (now : Nat) (id typ : String) (d dj : Def)
    (b : Bucket) (c : Compiler) (v : Validator)
    (hid : id ≠ "") (htyp : typ ≠ "") (hb : DB.bucket s.db id = some b)
    (hreg : get typ s.types = some c) (hc : c.Compile d = .ok v)
    (hm : Value.decodedFields d = some dj) :
    s.Create now id typ d = (.err .ErrSchemaExists, s) ∧
    (s.Create now id typ d).2.Get id = s.Get id ∧
    ∀ k, (s.Create now id typ d).2.GetVersion id k = s.GetVersion id k := by
  have h : s.Create now id typ d = (.err .ErrSchemaExists, s) := by
    obtain ⟨db, types⟩ := s
    cases db with
    | none => simp [DB.bucket] at hb
    | some root =>
      have hb' : get id root = some b := by simpa [DB.bucket] using hb
      have hreg' : get typ types = some c := hreg
      simp [service.Create, DB.Update, hid, htyp, hreg', hc, hb', marshal, hm]
  refine ⟨h, ?_, ?_⟩
  · rw [h]
  · intro k
    rw [h]

theorem Create_existing_rejected_witness :
    let s : service :=
      { db := some [("a", [([1], { ID := "a", Typ := "avro", Time := 3, Version := 1,
                                   Def := [] })])],
        types := [("avro", keysCompiler)] }
    s.Create 9 "a" "avro" [("type", .string "record")] = (.err .ErrSchemaExists, s) ∧
      (s.Create 9 "a" "avro" [("type", .string "record")]).2.Get "a" = s.Get "a" ∧
      ∀ k, (s.Create 9 "a" "avro" [("type", .string "record")]).2.GetVersion "a" k =
        s.GetVersion "a" k :=
  Create_existing_rejected _ 9 "a" "avro" [("type", .string "record")]
    [("type", .string "record")]
    [([1], { ID := "a", Typ := "avro", Time := 3, Version := 1, Def := [] })]
    keysCompiler { Validate := fun _ => .ok ["type"] } (by decide) (by decide) rfl rfl rfl
    rfl

/-! ## Delete -/

/-- C10: when `id` exists, `Delete(id)` returns no error; on the store after the call
`Get(id)` and `GetVersion(id, k)` for every `k` return ErrSchemaDoesNotExist and `List()`
does not hold `id`; for every other id `Get` and every `GetVersion` answer as before. -/
theorem Delete_removes_only_id (s : service) (id : String) (b : Bucket)
    (hb : DB.bucket s.db id = some b) :
    (s.Delete id).1 = .ok () ∧
    (s.Delete id).2.Get id = .err .ErrSchemaDoesNotExist ∧
    (∀ k, (s.Delete id).2.GetVersion id k = .err .ErrSchemaDoesNotExist) ∧
    (∃ ids, (s.Delete id).2.List = .ok ids ∧ id ∉ ids) ∧
    ∀ id2, id2 ≠ id →
      (s.Delete id).2.Get id2 = s.Get id2 ∧
      ∀ k, (s.Delete id).2.GetVersion id2 k = s.GetVersion id2 k := by
  obtain ⟨db, types⟩ := s
  cases db with
  | none => simp [DB.bucket] at hb
  | some root =>
    have hb' : get id root = some b := by simpa [DB.bucket] using hb
    have hd : service.Delete { db := some root, types := types } id =
        (.ok (), { db := some (del id root), types := types }) := by
      simp [service.Delete, DB.Update, hb']
    rw [hd]
    refine ⟨rfl, ?_, ?_, ⟨(del id root).map Prod.fst, rfl, not_mem_keys_del id root⟩, ?_⟩
    · simp [service.Get, get_del_self, found, Schema.zero]
    · intro k
      simp [service.GetVersion, get_del_self, found, Schema.zero]
    · intro id2 hne
      refine ⟨?_, ?_⟩
      · simp [service.Get, get_del_other id id2 root hne]
      · intro k
        simp [service.GetVersion, get_del_other id id2 root hne]

theorem Delete_removes_only_id_witness :
    let s : service :=
      { db := some [("a", [([1], { ID := "a", Typ := "avro", Time := 3, Version := 1,
                                   Def := [] })]),
                    ("b", [([1], { ID := "b", Typ := "avro", Time := 4, Version := 1,
                                   Def := [] })])],
        types := [("avro", keysCompiler)] }
    (s.Delete "a").1 = .ok () ∧
    (s.Delete "a").2.Get "a" = .err .ErrSchemaDoesNotExist ∧
    (∀ k, (s.Delete "a").2.GetVersion "a" k = .err .ErrSchemaDoesNotExist) ∧
    (∃ ids, (s.Delete "a").2.List = .ok ids ∧ "a" ∉ ids) ∧
    ∀ id2, id2 ≠ "a" →
      (s.Delete "a").2.Get id2 = s.Get id2 ∧
      ∀ k, (s.Delete "a").2.GetVersion id2 k = s.GetVersion id2 k :=
  Delete_removes_only_id _ "a"
    [([1], { ID := "a", Typ := "avro", Time := 3, Version := 1, Def := [] })] rfl

/-! ## Keys of the versions up to 256 -/

theorem itob_small (v : Nat) (h : v < 128) : itob v = some [v] := by
  have h1 : v % 2 ^ uintBits = v := Nat.mod_eq_of_lt (by simp [uintBits]; omega)
  have h2 : v % 256 = v := Nat.mod_eq_of_lt (by omega)
  rw [itob, h1]
  simp [MaxVarintLen32, PutUvarint, h2, h]

set_option maxRecDepth 100000 in
theorem itob_two_bytes : ∀ v < 256, 128 ≤ v → itob v = some [v, 1] := by
  decide

theorem itob_verKey (v : Nat) (h : v ≤ 256) : itob v = some (verKey v) := by
  unfold verKey
  split_ifs with h1 h2
  · exact itob_small v h1
  · exact itob_two_bytes v h2 (by omega)
  · have : v = 256 := by omega
    subst this
    decide

theorem verKey_ne (a b : Nat) (ha : a ≤ 256) (hb : b ≤ 256) (h : a ≠ b) :
    verKey a ≠ verKey b := by
  unfold verKey
  split_ifs <;> simp <;> omega

theorem verKey_not_lt_below (w v : Nat) (h : w < v) (hv : v ≤ 255) :
    bytesLt (verKey v) (verKey w) = false := by
  unfold verKey
  split_ifs <;> simp [bytesLt] <;> omega

theorem verKey_256_not_lt (w : Nat) (h : w ≤ 128) :
    bytesLt (verKey 256) (verKey w) = false := by
  unfold verKey
  split_ifs <;> simp [bytesLt] <;> omega

/-! ## Insertion into a list in cursor order -/

theorem put_append_skip {κ β : Type} [DecidableEq κ] (lt : κ → κ → Bool) (k : κ) (v : β)
    (l1 l2 : List (κ × β)) (h : ∀ e ∈ l1, k ≠ e.1 ∧ lt k e.1 = false) :
    put lt k v (l1 ++ l2) = l1 ++ put lt k v l2 := by
  induction l1 with
  | nil => rfl
  | cons e rest ih =>
    obtain ⟨k', v'⟩ := e
    have he := h (k', v') (List.mem_cons_self _ _)
    have ih' := ih (fun e he => h e (List.mem_cons_of_mem _ he))
    simp [put, he.1, he.2, ih']

theorem put_cons_before {κ β : Type} [DecidableEq κ] (lt : κ → κ → Bool) (k k2 : κ)
    (v v2 : β) (rest : List (κ × β)) (hne : k ≠ k2) (hlt : lt k k2 = true) :
    put lt k v ((k2, v2) :: rest) = (k, v) :: (k2, v2) :: rest := by
  simp [put, hne, hlt]

theorem put_cons_same {κ β : Type} [DecidableEq κ] (lt : κ → κ → Bool) (k : κ)
    (v v2 : β) (rest : List (κ × β)) :
    put lt k v ((k, v2) :: rest) = (k, v) :: rest := by
  simp [put]

theorem map_update_skip (f : Nat → Schema) (a : Nat) (x : Schema) (l : List Nat)
    (h : a ∉ l) :
    l.map (fun v => (verKey v, Function.update f a x v)) = l.map (fun v => (verKey v, f v)) := by
  apply List.map_congr_left
  intro v hv
  have : v ≠ a := fun e => h (e ▸ hv)
  simp [Function.update, this]

/-! ## The cursor's last record and the next insertion in a history -/

theorem not_mem_range (a s n : Nat) (h : a < s ∨ s + n ≤ a) : a ∉ List.range' s n := by
  intro hm
  have := List.mem_range'_1.mp hm
  omega

theorem layout_low (M : Nat) (h : M ≤ 254) : layout (M + 1) = List.range' 1 M ++ [M + 1] := by
  have h1 : M + 1 ≤ 255 := by omega
  simp [layout, h1, List.range'_concat, Nat.add_comm]

theorem layout_255 : layout 255 = List.range' 1 128 ++ 129 :: List.range' 130 126 := by
  have h1 : List.range' 1 255 = List.range' 1 128 ++ List.range' 129 127 :=
    (List.range'_append_1 1 128 127).symm
  have h2 : List.range' 129 127 = 129 :: List.range' 130 126 := List.range'_succ 129 126 1
  have h3 : layout 255 = List.range' 1 255 := if_pos (by decide)
  rw [h3, h1, h2]

theorem layout_256 : layout 256 = List.range' 1 128 ++ 256 :: 129 :: List.range' 130 126 := by
  have h2 : List.range' 129 127 = 129 :: List.range' 130 126 := List.range'_succ 129 126 1
  have h3 : layout 256 = List.range' 1 128 ++ 256 :: List.range' 129 127 :=
    if_neg (by decide)
  rw [h3, h2]

theorem layout_top :
    layout 256 = (List.range' 1 128 ++ 256 :: List.range' 129 126) ++ [255] := by
  have h2 : List.range' 129 127 = List.range' 129 126 ++ [255] := List.range'_concat 129 126
  have h3 : layout 256 = List.range' 1 128 ++ 256 :: List.range' 129 127 :=
    if_neg (by decide)
  rw [h3, h2, List.append_assoc, List.cons_append]

theorem lastValue_shape (f : Nat → Schema) (N : Nat) (h1 : 1 ≤ N) (h : N ≤ 256) :
    Bucket.lastValue (shape f N) = some (f (lastVer N)) := by
  by_cases hN : N ≤ 255
  · obtain ⟨M, rfl⟩ : ∃ M, N = M + 1 := ⟨N - 1, by omega⟩
    simp [Bucket.lastValue, shape, layout_low M (by omega), lastVer, hN]
  · have : N = 256 := by omega
    subst this
    have hl : lastVer 256 = 255 := by decide
    rw [shape, layout_top, List.map_append, hl]
    simp only [List.map_cons, List.map_nil, Bucket.lastValue, List.getLast?_concat,
      Option.map_some']

theorem put_into_front (f : Nat → Schema) (x : Schema) (a : Nat) (ha : a ≤ 256)
    (A : List Nat) (rest : Bucket) (hA : ∀ w ∈ A, w < a ∧ (a ≤ 255 ∨ w ≤ 128)) :
    put bytesLt (verKey a) x (A.map (fun v => (verKey v, f v)) ++ rest) =
      A.map (fun v => (verKey v, Function.update f a x v)) ++ put bytesLt (verKey a) x rest := by
  rw [put_append_skip bytesLt (verKey a) x _ _ (by
      intro e he
      obtain ⟨w, hw, rfl⟩ := List.mem_map.mp he
      have hw' := hA w hw
      refine ⟨verKey_ne _ _ ha (by omega) (by omega), ?_⟩
      rcases hw'.2 with h255 | h128
      · exact verKey_not_lt_below w a hw'.1 h255
      · by_cases h255 : a ≤ 255
        · exact verKey_not_lt_below w a hw'.1 h255
        · have : a = 256 := by omega
          subst this
          exact verKey_256_not_lt w h128),
    map_update_skip f a x A (fun hm => by have := (hA a hm).1; omega)]

theorem put_shape (f : Nat → Schema) (x : Schema) (N : Nat) (h1 : 1 ≤ N) (h : N ≤ 256) :
    put bytesLt (verKey (lastVer N + 1)) x (shape f N) =
      shape (Function.update f (lastVer N + 1) x) (nextN N) := by
  by_cases hN : N ≤ 254
  · -- the new version is N + 1 ≤ 255: its key goes last
    have hN' : N ≤ 255 := by omega
    have hl : lastVer N = N := by simp [lastVer, hN']
    have hn : nextN N = N + 1 := by simp [nextN, hN']
    have hold : layout N = List.range' 1 N := by simp [layout, hN']
    have hpre := put_into_front f x (N + 1) (by omega) (List.range' 1 N) [] (by
      intro w hw
      have := List.mem_range'_1.mp hw
      omega)
    rw [List.append_nil] at hpre
    rw [hl, hn, shape, shape, layout_low N hN, hold, hpre, List.map_append]
    simp [put]
  · by_cases hN2 : N = 255
    · -- the new version is 256: its key goes between those of 128 and 129
      subst hN2
      have hl : lastVer 255 = 255 := by decide
      have hn : nextN 255 = 256 := by decide
      have hpre := put_into_front f x 256 (by omega) (List.range' 1 128)
        ((verKey 129, f 129) :: (List.range' 130 126).map (fun v => (verKey v, f v))) (by
          intro w hw
          have := List.mem_range'_1.mp hw
          omega)
      have h129 : verKey 256 ≠ verKey 129 := by decide
      have hlt : bytesLt (verKey 256) (verKey 129) = true := by decide
      have hrest := map_update_skip f 256 x (List.range' 130 126)
        (not_mem_range _ _ _ (by omega))
      have hu1 : Function.update f 256 x 256 = x := Function.update_same _ _ _
      have hu2 : Function.update f 256 x 129 = f 129 :=
        Function.update_noteq (by decide) _ _
      rw [hl, hn, shape, shape, layout_255, layout_256, List.map_append, List.map_cons,
        hpre, List.map_append, List.map_cons, List.map_cons, hrest, hu1, hu2,
        put_cons_before bytesLt _ _ _ _ _ h129 hlt]
    · -- the history is full: the record of version 256 is replaced
      have hN3 : N = 256 := by omega
      subst hN3
      have hl : lastVer 256 = 255 := by decide
      have hn : nextN 256 = 256 := by decide
      have hpre := put_into_front f x 256 (by omega) (List.range' 1 128)
        ((verKey 256, f 256) :: (verKey 129, f 129) ::
          (List.range' 130 126).map (fun v => (verKey v, f v))) (by
          intro w hw
          have := List.mem_range'_1.mp hw
          omega)
      have hrest := map_update_skip f 256 x (List.range' 130 126)
        (not_mem_range _ _ _ (by omega))
      have hu1 : Function.update f 256 x 256 = x := Function.update_same _ _ _
      have hu2 : Function.update f 256 x 129 = f 129 :=
        Function.update_noteq (by decide) _ _
      rw [hl, hn, shape, shape, layout_256, List.map_append, List.map_cons, List.map_cons,
        hpre, List.map_append, List.map_cons, List.map_cons, hrest, hu1, hu2,
        put_cons_same]

/-! ## What a write call does to the store -/

theorem Create_cases (s : service) (now : Nat) (id typ : String) (d : Def) :
    (s.Create now id typ d).2 = s ∨
    (id ≠ "" ∧ typ ≠ "" ∧ get id (s.db.getD []) = none ∧
      ∃ c v dj, get typ s.types = some c ∧ c.Compile d = .ok v ∧
      Value.decodedFields d = some dj ∧
      s.Create now id typ d =
        (.ok { ID := id, Typ := typ, Time := now, Version := 1, Def := d },
          { s with db := some (put idLt id
            (put bytesLt [1] { ID := id, Typ := typ, Time := now, Version := 1, Def := dj } [])
            (s.db.getD [])) })) := by
  obtain ⟨db, types⟩ := s
  by_cases hid : id = ""
  · left; simp [service.Create, hid]
  by_cases htyp : typ = ""
  · left; simp [service.Create, hid, htyp]
  cases hreg : get typ types with
  | none => left; simp [service.Create, hid, htyp, hreg]
  | some c =>
    cases hc : c.Compile d with
    | error e => left; simp [service.Create, hid, htyp, hreg, hc]
    | ok v =>
      cases hm : Value.decodedFields d with
      | none => left; simp [service.Create, hid, htyp, hreg, hc, marshal, hm]
      | some dj =>
        cases hg : get id (db.getD []) with
        | some b0 =>
          left; simp [service.Create, DB.Update, hid, htyp, hreg, hc, marshal, hm, hg]
        | none =>
          right
          refine ⟨hid, htyp, rfl, c, v, dj, rfl, hc, rfl, ?_⟩
          simp [service.Create, DB.Update, hid, htyp, hreg, hc, marshal, hm, hg, itob_one]

theorem Update_cases (s : service) (now : Nat) (id : String) (d : Def) :
    (s.Update now id d).2 = s ∨
    ∃ root b x c v dj k, id ≠ "" ∧ s.db = some root ∧ get id root = some b ∧
      b.lastValue = some x ∧ get x.Typ s.types = some c ∧ c.Compile d = .ok v ∧
      Value.decodedFields d = some dj ∧
      itob ((x.Version + 1) % 2 ^ uintBits) = some k ∧
      s.Update now id d =
        (.ok { x with Time := now, Version := (x.Version + 1) % 2 ^ uintBits, Def := d },
          { s with db := some (put idLt id
            (put bytesLt k
              { x with Time := now, Version := (x.Version + 1) % 2 ^ uintBits, Def := dj } b)
            root) }) := by
  obtain ⟨db, types⟩ := s
  by_cases hid : id = ""
  · left; simp [service.Update, hid]
  cases db with
  | none => left; simp [service.Update, DB.Update, hid]
  | some root =>
    cases hg : get id root with
    | none => left; simp [service.Update, DB.Update, hid, hg]
    | some b =>
      cases hx : b.lastValue with
      | none => left; simp [service.Update, DB.Update, hid, hg, hx, unmarshal]
      | some x =>
        cases hreg : get x.Typ types with
        | none => left; simp [service.Update, DB.Update, hid, hg, hx, unmarshal, hreg]
        | some c =>
          cases hc : c.Compile d with
          | error e =>
            left; simp [service.Update, DB.Update, hid, hg, hx, unmarshal, hreg, hc]
          | ok v =>
            cases hm : Value.decodedFields d with
            | none =>
              left
              simp [service.Update, DB.Update, hid, hg, hx, unmarshal, hreg, hc, marshal, hm]
            | some dj =>
              cases hk : itob ((x.Version + 1) % 2 ^ uintBits) with
              | none =>
                left
                simp [service.Update, DB.Update, hid, hg, hx, unmarshal, hreg, hc, marshal,
                  hm, hk]
              | some k =>
                right
                refine ⟨root, b, x, c, v, dj, k, hid, rfl, hg, hx, hreg, hc, rfl, hk, ?_⟩
                simp [service.Update, DB.Update, hid, hg, hx, unmarshal, hreg, hc, marshal,
                  hm, hk]

theorem Delete_cases (s : service) (id : String) :
    (s.Delete id).2 = s ∨
    ∃ root, s.db = some root ∧ (s.Delete id).2 = { s with db := some (del id root) } := by
  obtain ⟨db, types⟩ := s
  cases db with
  | none => left; simp [service.Delete, DB.Update]
  | some root =>
    cases hg : get id root with
    | none => left; simp [service.Delete, DB.Update, hg]
    | some b =>
      right
      exact ⟨root, rfl, by simp [service.Delete, DB.Update, hg]⟩

/-! ## Every bucket is a history -/

theorem History_first (x : Schema) (hv : x.Version = 1) :
    History x.ID (put bytesLt [1] x []) := by
  refine ⟨1, fun v => { x with Version := v }, le_refl 1, by omega, ?_, fun v => ⟨rfl, rfl⟩⟩
  have hl : layout 1 = [1] := by decide
  have hk : verKey 1 = [1] := by decide
  have hx : ({ x with Version := 1 } : Schema) = x := by
    cases x
    simp_all
  simp [shape, hl, hk, put, hx]

theorem History_next (id : String) (b : Bucket) (h : History id b) (x : Schema) (k : Bytes)
    (now : Nat) (d : Def) (hx : b.lastValue = some x)
    (hk : itob ((x.Version + 1) % 2 ^ uintBits) = some k) :
    History id (put bytesLt k
      { x with Time := now, Version := (x.Version + 1) % 2 ^ uintBits, Def := d } b) := by
  obtain ⟨N, f, h1, h256, rfl, hf⟩ := h
  rw [lastValue_shape f N h1 h256] at hx
  have hxf : x = f (lastVer N) := (Option.some.inj hx).symm
  have hxv : x.Version = lastVer N := by rw [hxf]; exact (hf _).1
  have hlast : lastVer N ≤ 255 := by unfold lastVer; split_ifs <;> omega
  have hmod : (x.Version + 1) % 2 ^ uintBits = lastVer N + 1 := by
    rw [hxv]
    exact Nat.mod_eq_of_lt (by simp [uintBits]; omega)
  rw [hmod] at hk ⊢
  rw [itob_verKey _ (by omega)] at hk
  have hk' : k = verKey (lastVer N + 1) := (Option.some.inj hk).symm
  rw [hk', put_shape f _ N h1 h256]
  refine ⟨nextN N, _, ?_, ?_, rfl, ?_⟩
  · unfold nextN; split_ifs <;> omega
  · unfold nextN; split_ifs <;> omega
  · intro v
    by_cases hv : v = lastVer N + 1
    · subst hv
      rw [Function.update_same]
      exact ⟨rfl, by rw [hxf]; exact (hf _).2⟩
    · rw [Function.update_noteq hv]
      exact hf v

theorem bucket_getD (db : DB) (id : String) : get id (db.getD []) = DB.bucket db id := by
  cases db <;> simp [DB.bucket, get]

theorem StoreOK_step (s : service) (op : Op) (h : StoreOK s) : StoreOK (step s op) := by
  cases op with
  | create now id typ d =>
    rcases Create_cases s now id typ d with hs | ⟨_, _, _, c, v, dj, _, _, _, hs⟩
    · simpa [step, hs] using h
    · intro id2 b2 hb2
      simp only [step, hs, DB.bucket] at hb2
      by_cases hid2 : id2 = id
      · subst hid2
        rw [get_put_self] at hb2
        have := History_first
          { ID := id2, Typ := typ, Time := now, Version := 1, Def := dj } rfl
        rw [← Option.some.inj hb2]
        exact this
      · rw [get_put_other _ _ _ _ _ hid2, bucket_getD] at hb2
        exact h id2 b2 hb2
  | update now id d =>
    rcases Update_cases s now id d with
      hs | ⟨root, b, x, c, v, dj, k, _, hdb, hg, hx, _, _, _, hk, hs⟩
    · simpa [step, hs] using h
    · intro id2 b2 hb2
      simp only [step, hs, DB.bucket] at hb2
      by_cases hid2 : id2 = id
      · subst hid2
        rw [get_put_self] at hb2
        rw [← Option.some.inj hb2]
        exact History_next id2 b (h id2 b (by simp [DB.bucket, hdb, hg])) x k now dj hx hk
      · rw [get_put_other _ _ _ _ _ hid2] at hb2
        exact h id2 b2 (by simp [DB.bucket, hdb, hb2])
  | delete id =>
    rcases Delete_cases s id with hs | ⟨root, hdb, hs⟩
    · simpa [step, hs] using h
    · intro id2 b2 hb2
      simp only [step, hs, DB.bucket] at hb2
      by_cases hid2 : id2 = id
      · subst hid2
        rw [get_del_self] at hb2
        cases hb2
      · rw [get_del_other _ _ _ hid2] at hb2
        exact h id2 b2 (by simp [DB.bucket, hdb, hb2])

theorem StoreOK_run (ops : List Op) (s : service) (h : StoreOK s) : StoreOK (run s ops) := by
  induction ops generalizing s with
  | nil => exact h
  | cons op ops ih => exact ih (step s op) (StoreOK_step s op h)

theorem StoreOK_empty (types : List (String × Compiler)) :
    StoreOK { db := none, types := types } := by
  intro id b hb
  simp [DB.bucket] at hb

theorem mem_layout (N v : Nat) (h1 : 1 ≤ N) (h : N ≤ 256) :
    v ∈ layout N ↔ 1 ≤ v ∧ v ≤ N := by
  unfold layout
  split_ifs with hN
  · rw [List.mem_range'_1]; omega
  · have : N = 256 := by omega
    subst this
    rw [List.mem_append, List.mem_cons, List.mem_range'_1, List.mem_range'_1]
    omega

theorem nodup_layout (N : Nat) : (layout N).Nodup := by
  unfold layout
  split_ifs with hN
  · exact List.nodup_range' 1 N
  · rw [List.nodup_append]
    refine ⟨List.nodup_range' 1 128, ?_, ?_⟩
    · rw [List.nodup_cons]
      exact ⟨not_mem_range _ _ _ (by omega), List.nodup_range' 129 127⟩
    · intro a ha hb
      rw [List.mem_range'_1] at ha
      rw [List.mem_cons, List.mem_range'_1] at hb
      omega

theorem versions_shape (f : Nat → Schema) (N : Nat) (hf : ∀ v, (f v).Version = v) :
    (shape f N).map (fun e => e.2.Version) = layout N := by
  rw [shape, List.map_map]
  have : ((fun e : Bytes × Schema => e.2.Version) ∘ fun v => (verKey v, f v)) = id := by
    funext v
    exact hf v
  rw [this, List.map_id]

/-- C5: in the store after any sequence of Create, Update and Delete calls on the empty
store, the records of every existing id have the versions `1, 2, ..., N` for some
`N ≥ 1`, each in one record. -/
theorem versions_no_gap (types : List (String × Compiler)) (ops : List Op) (id : String)
    (b : Bucket) (hb : DB.bucket (run { db := none, types := types } ops).db id = some b) :
    ∃ N, 1 ≤ N ∧ (∀ v, v ∈ b.map (fun e => e.2.Version) ↔ 1 ≤ v ∧ v ≤ N) ∧
      (b.map (fun e => e.2.Version)).Nodup := by
  obtain ⟨N, f, h1, h256, rfl, hf⟩ := StoreOK_run ops _ (StoreOK_empty types) id b hb
  refine ⟨N, h1, ?_, ?_⟩
  · intro v
    rw [versions_shape f N (fun v => (hf v).1)]
    exact mem_layout N v h1 h256
  · rw [versions_shape f N (fun v => (hf v).1)]
    exact nodup_layout N

theorem versions_no_gap_witness :
    ∃ N, 1 ≤ N ∧
      (∀ v, v ∈ ([([1], { ID := "a", Typ := "avro", Time := 1, Version := 1, Def := [] }),
                  ([2], { ID := "a", Typ := "avro", Time := 3, Version := 2,
                          Def := [("type", .string "int")] })] : Bucket).map
                (fun e => e.2.Version) ↔ 1 ≤ v ∧ v ≤ N) ∧
      (([([1], { ID := "a", Typ := "avro", Time := 1, Version := 1, Def := [] }),
         ([2], { ID := "a", Typ := "avro", Time := 3, Version := 2,
                 Def := [("type", .string "int")] })] : Bucket).map
        (fun e => e.2.Version)).Nodup :=
  versions_no_gap [("avro", keysCompiler)]
    [.create 1 "a" "avro" [], .create 2 "b" "avro" [],
     .update 3 "a" [("type", .string "int")], .delete "b"] "a" _ rfl

/-! ## The calls on a history -/

theorem shape_one (f : Nat → Schema) : shape f 1 = [([1], f 1)] := by
  have hl : layout 1 = [1] := by decide
  have hk : verKey 1 = [1] := by decide
  simp [shape, hl, hk]

theorem get_map_key (f : Nat → Schema) (l : List Nat) (v : Nat) (hv : v ∈ l)
    (hinj : ∀ w ∈ l, verKey w = verKey v → w = v) :
    get (verKey v) (l.map (fun w => (verKey w, f w))) = some (f v) := by
  induction l with
  | nil => cases hv
  | cons a rest ih =>
    by_cases ha : verKey v = verKey a
    · have := hinj a (List.mem_cons_self _ _) ha.symm
      subst this
      simp [get]
    · have hne : v ≠ a := fun e => ha (e ▸ rfl)
      have hv' : v ∈ rest := by
        rcases List.mem_cons.mp hv with h | h
        · exact absurd h hne
        · exact h
      simp [get, ha, ih hv' (fun w hw => hinj w (List.mem_cons_of_mem _ hw))]

theorem get_shape (f : Nat → Schema) (N v : Nat) (h1 : 1 ≤ N) (h : N ≤ 256)
    (hv1 : 1 ≤ v) (hv : v ≤ N) : get (verKey v) (shape f N) = some (f v) := by
  apply get_map_key f (layout N) v ((mem_layout N v h1 h).mpr ⟨hv1, hv⟩)
  intro w hw hk
  have hw' := (mem_layout N w h1 h).mp hw
  by_contra hne
  exact verKey_ne w v (by omega) (by omega) hne hk

theorem Get_on_history (s : service) (id : String) (root : Root) (f : Nat → Schema)
    (N : Nat) (hdb : s.db = some root) (hg : get id root = some (shape f N))
    (h1 : 1 ≤ N) (h : N ≤ 256) (hid : (f (lastVer N)).ID ≠ "") :
    s.Get id = .ok (f (lastVer N)) := by
  simp [service.Get, hdb, hg, lastValue_shape f N h1 h, unmarshal, found, hid]

theorem GetVersion_on_history (s : service) (id : String) (root : Root) (f : Nat → Schema)
    (N v : Nat) (hdb : s.db = some root) (hg : get id root = some (shape f N))
    (h1 : 1 ≤ N) (h : N ≤ 256) (hv1 : 1 ≤ v) (hv : v ≤ N) (hid : (f v).ID ≠ "") :
    s.GetVersion id v = .ok (f v) := by
  simp [service.GetVersion, hdb, hg, itob_verKey v (by omega), get_shape f N v h1 h hv1 hv,
    found, hid]

theorem Update_on_history (s : service) (now : Nat) (id : String) (d dj : Def) (root : Root)
    (f : Nat → Schema) (N : Nat) (c : Compiler) (v : Validator)
    (hid : id ≠ "") (hdb : s.db = some root) (hg : get id root = some (shape f N))
    (h1 : 1 ≤ N) (h : N ≤ 256) (hf : (f (lastVer N)).Version = lastVer N)
    (hreg : get (f (lastVer N)).Typ s.types = some c) (hc : c.Compile d = .ok v)
    (hm : Value.decodedFields d = some dj) :
    s.Update now id d =
      (.ok { f (lastVer N) with Time := now, Version := lastVer N + 1, Def := d },
        { s with db := some (put idLt id
          (shape (Function.update f (lastVer N + 1)
            { f (lastVer N) with Time := now, Version := lastVer N + 1, Def := dj })
            (nextN N)) root) }) := by
  have hlast : lastVer N ≤ 255 := by unfold lastVer; split_ifs <;> omega
  have hmod : ((f (lastVer N)).Version + 1) % 2 ^ uintBits = lastVer N + 1 := by
    rw [hf]
    exact Nat.mod_eq_of_lt (by simp [uintBits]; omega)
  obtain ⟨db, types⟩ := s
  cases hdb
  have hreg' : get (f (lastVer N)).Typ types = some c := hreg
  simp only [service.Update, DB.Update, hid, if_false, hg, lastValue_shape f N h1 h, unmarshal,
    hreg', hc, marshal, hm, Option.map_some', hmod, itob_verKey (lastVer N + 1) (by omega),
    put_shape f _ N h1 h]

theorem Validate_on_history (s : service) (id : String) (val : Bytes) (root : Root)
    (f : Nat → Schema) (N : Nat) (c : Compiler) (v : Validator)
    (hdb : s.db = some root) (hg : get id root = some (shape f N))
    (h1 : 1 ≤ N) (h : N ≤ 256)
    (hreg : get (f (lastVer N)).Typ s.types = some c)
    (hc : c.Compile (f (lastVer N)).Def = .ok v) :
    s.Validate id val =
      match v.Validate val with
      | .error e => .err e
      | .ok errs => .ok errs := by
  simp only [service.Validate, hdb, hg, lastValue_shape f N h1 h, unmarshal, hreg, hc]

/-! ## Create followed by Updates -/

theorem createThenUpdate_state (s : service) (id typ : String) (d : Nat → Def) (c : Compiler)
    (hdb : s.db = none) (hid : id ≠ "") (htyp : typ ≠ "") (hreg : get typ s.types = some c)
    (hc : ∀ i, ∃ v, c.Compile (d i) = .ok v)
    (hm : ∀ i, Value.decodedFields (d i) = some (d i)) (n : Nat) (hn : n ≤ 255) :
    createThenUpdate s id typ d n =
      (.ok (written id typ d (n + 1)),
        { s with db := some [(id, shape (written id typ d) (n + 1))] }) := by
  induction n with
  | zero =>
    obtain ⟨v, hv⟩ := hc 0
    obtain ⟨db, types⟩ := s
    cases hdb
    have hreg' : get typ types = some c := hreg
    simp [createThenUpdate, service.Create, DB.Update, hid, htyp, hreg', hv, marshal, hm 0,
      get, itob_one, put, shape_one, written]
  | succ n ih =>
    obtain ⟨v, hv⟩ := hc (n + 1)
    have hl : lastVer (n + 1) = n + 1 := by simp [lastVer]; omega
    have hnext : nextN (n + 1) = n + 1 + 1 := by simp [nextN]; omega
    have hrec : ({ written id typ d (n + 1) with
        Time := n + 1, Version := n + 1 + 1, Def := d (n + 1) } : Schema) =
        written id typ d (n + 1 + 1) := by
      simp [written]
    rw [createThenUpdate, ih (by omega)]
    rw [Update_on_history _ (n + 1) id (d (n + 1)) (d (n + 1))
      [(id, shape (written id typ d) (n + 1))]
      (written id typ d) (n + 1) c v hid rfl (by simp [get]) (by omega) (by omega)
      (by rw [hl]; rfl) (by rw [hl]; exact hreg) hv (hm (n + 1))]
    rw [hl, hnext, hrec, Function.update_eq_self, put_cons_same]

theorem scenario_255 :
    createThenUpdate (oneCompiler keysCompiler) "a" "avro" defNo 255 =
      (.ok (written "a" "avro" defNo 256),
        { oneCompiler keysCompiler with
          db := some [("a", shape (written "a" "avro" defNo) 256)] }) :=
  createThenUpdate_state (oneCompiler keysCompiler) "a" "avro" defNo keysCompiler rfl
    (by decide) (by decide) rfl (fun _ => ⟨_, rfl⟩) (fun _ => rfl) 255 (le_refl 255)

theorem scenario_256 :
    createThenUpdate (oneCompiler keysCompiler) "a" "avro" defNo 256 =
      (.ok { ID := "a", Typ := "avro", Time := 256, Version := 256, Def := defNo 256 },
        { oneCompiler keysCompiler with
          db := some [("a", shape
            (Function.update (written "a" "avro" defNo) 256
              { ID := "a", Typ := "avro", Time := 256, Version := 256, Def := defNo 256 })
            256)] }) := by
  have hl : lastVer 256 = 255 := by decide
  have hn : nextN 256 = 256 := by decide
  rw [createThenUpdate, scenario_255,
    Update_on_history _ 256 "a" (defNo 256) (defNo 256)
      [("a", shape (written "a" "avro" defNo) 256)]
      (written "a" "avro" defNo) 256 keysCompiler _ (by decide) rfl (by simp [get])
      (by omega) (by omega) (by rw [hl]; rfl) (by rw [hl]; rfl) rfl rfl]
  rw [hl, hn, put_cons_same]
  rfl

/-- C2 (fails on the code): after `Create("a", "avro", D0)` and the 255 calls
`Update("a", D1)`, ..., `Update("a", D255)`, the last of which returned version 256 with
`Def = D255`, `Get("a")` returns the record of version 255 with `Def = D254`, while
`GetVersion("a", 256)` returns the record of version 256; and the 256th call
`Update("a", D256)` returns version 256 again, not 257. -/
theorem Get_after_255_updates :
    (createThenUpdate (oneCompiler keysCompiler) "a" "avro" defNo 255).1 =
      .ok { ID := "a", Typ := "avro", Time := 255, Version := 256, Def := defNo 255 } ∧
    (createThenUpdate (oneCompiler keysCompiler) "a" "avro" defNo 255).2.Get "a" =
      .ok { ID := "a", Typ := "avro", Time := 254, Version := 255, Def := defNo 254 } ∧
    (createThenUpdate (oneCompiler keysCompiler) "a" "avro" defNo 255).2.GetVersion "a" 256 =
      .ok { ID := "a", Typ := "avro", Time := 255, Version := 256, Def := defNo 255 } ∧
    (createThenUpdate (oneCompiler keysCompiler) "a" "avro" defNo 256).1 =
      .ok { ID := "a", Typ := "avro", Time := 256, Version := 256, Def := defNo 256 } := by
  refine ⟨?_, ?_, ?_, ?_⟩
  · rw [scenario_255]
    rfl
  · rw [scenario_255,
      Get_on_history _ "a" [("a", shape (written "a" "avro" defNo) 256)]
        (written "a" "avro" defNo) 256 rfl (by simp [get]) (by omega) (by omega)
        (by decide)]
    rfl
  · rw [scenario_255,
      GetVersion_on_history _ "a" [("a", shape (written "a" "avro" defNo) 256)]
        (written "a" "avro" defNo) 256 256 rfl (by simp [get]) (by omega) (by omega)
        (by omega) (by omega) (by decide)]
    rfl
  · rw [scenario_256]

/-- C3 (fails on the code): after `Create("a", "avro", D0)` and 255 Updates,
`GetVersion("a", 256)` returns the record written by the 255th Update; the next call
`Update("a", D256)` succeeds with version 256, and afterwards `GetVersion("a", 256)`
returns the new record: version 256 was overwritten. -/
theorem Update_overwrites_version_256 :
    (createThenUpdate (oneCompiler keysCompiler) "a" "avro" defNo 255).2.GetVersion "a" 256 =
      .ok { ID := "a", Typ := "avro", Time := 255, Version := 256, Def := defNo 255 } ∧
    ((createThenUpdate (oneCompiler keysCompiler) "a" "avro" defNo 255).2.Update 256 "a"
        (defNo 256)).1 =
      .ok { ID := "a", Typ := "avro", Time := 256, Version := 256, Def := defNo 256 } ∧
    ((createThenUpdate (oneCompiler keysCompiler) "a" "avro" defNo 255).2.Update 256 "a"
        (defNo 256)).2.GetVersion "a" 256 =
      .ok { ID := "a", Typ := "avro", Time := 256, Version := 256, Def := defNo 256 } := by
  have h256 := scenario_256
  rw [createThenUpdate] at h256
  refine ⟨?_, ?_, ?_⟩
  · rw [scenario_255,
      GetVersion_on_history _ "a" [("a", shape (written "a" "avro" defNo) 256)]
        (written "a" "avro" defNo) 256 256 rfl (by simp [get]) (by omega) (by omega)
        (by omega) (by omega) (by decide)]
    rfl
  · rw [h256]
  · rw [h256,
      GetVersion_on_history _ "a"
        [("a", shape (Function.update (written "a" "avro" defNo) 256
          { ID := "a", Typ := "avro", Time := 256, Version := 256, Def := defNo 256 }) 256)]
        (Function.update (written "a" "avro" defNo) 256
          { ID := "a", Typ := "avro", Time := 256, Version := 256, Def := defNo 256 })
        256 256 rfl (by simp [get]) (by omega) (by omega) (by omega) (by omega)
        (by rw [Function.update_same]; decide)]
    rw [Function.update_same]

/-- C4 (fails on the code): after `Create("a", "avro", D0)` and 255 Updates, the last of
which stored `D255`, `Validate("a", val)` answers with the validator of `D254`: the
violations are `["v254"]`, where the validator compiled from `D255` gives `["v255"]`. -/
theorem Validate_after_255_updates :
    (createThenUpdate (oneCompiler keysCompiler) "a" "avro" defNo 255).1 =
      .ok { ID := "a", Typ := "avro", Time := 255, Version := 256, Def := defNo 255 } ∧
    (createThenUpdate (oneCompiler keysCompiler) "a" "avro" defNo 255).2.Validate "a" [] =
      .ok ["v254"] ∧
    (match keysCompiler.Compile (defNo 255) with
      | .ok v => v.Validate []
      | .error e => .error e) = .ok ["v255"] := by
  refine ⟨?_, ?_, ?_⟩
  · rw [scenario_255]
    rfl
  · rw [scenario_255,
      Validate_on_history
        { oneCompiler keysCompiler with
          db := some [("a", shape (written "a" "avro" defNo) 256)] }
        "a" [] [("a", shape (written "a" "avro" defNo) 256)]
        (written "a" "avro" defNo) 256 keysCompiler _ rfl (by simp [get]) (by omega)
        (by omega) rfl rfl]
    decide
  · rfl

/-! ## Calls on an id that is not in the store -/

/-- C11: when `id` is not empty and not in the store, `Get(id)`, `GetVersion(id, k)`,
`Update(id, d)`, `Delete(id)` and `Validate(id, val)` return ErrSchemaDoesNotExist, and
the service after `Update` and `Delete` (the calls that write) is the one before. -/
theorem unknown_id_not_found (s : service) (now : Nat) (id : String) (k : Nat) (d : Def)
    (val : Bytes) (hid : id ≠ "") (habs : DB.bucket s.db id = none) :
    s.Get id = .err .ErrSchemaDoesNotExist ∧
    s.GetVersion id k = .err .ErrSchemaDoesNotExist ∧
    s.Update now id d = (.err .ErrSchemaDoesNotExist, s) ∧
    s.Delete id = (.err .ErrSchemaDoesNotExist, s) ∧
    s.Validate id val = .err .ErrSchemaDoesNotExist := by
  obtain ⟨db, types⟩ := s
  cases db with
  | none =>
    simp [service.Get, service.GetVersion, service.Update, service.Delete, service.Validate,
      DB.Update, found, Schema.zero, hid]
  | some root =>
    have hg : get id root = none := by simpa [DB.bucket] using habs
    simp [service.Get, service.GetVersion, service.Update, service.Delete, service.Validate,
      DB.Update, found, Schema.zero, hid, hg]

theorem unknown_id_not_found_witness :
    let s : service :=
      { db := some [("a", [([1], { ID := "a", Typ := "avro", Time := 3, Version := 1,
                                   Def := [] })])],
        types := [("avro", keysCompiler)] }
    s.Get "b" = .err .ErrSchemaDoesNotExist ∧
    s.GetVersion "b" 1 = .err .ErrSchemaDoesNotExist ∧
    s.Update 4 "b" [] = (.err .ErrSchemaDoesNotExist, s) ∧
    s.Delete "b" = (.err .ErrSchemaDoesNotExist, s) ∧
    s.Validate "b" [110, 117, 108, 108] = .err .ErrSchemaDoesNotExist :=
  unknown_id_not_found _ 4 "b" 1 [] [110, 117, 108, 108] (by decide) rfl

/-! ## GetVersion with a version that does not fit the key buffer -/

/-- C14 (fails on the code): the id "a" exists with the one version 1; the version
`2 ^ 35` is in the range of `uint` and no record has it, but its varint needs six bytes
and `itob` has a buffer of five: `GetVersion("a", 2 ^ 35)` panics. -/
theorem GetVersion_panics_on_large_version :
    (DB.bucket ((oneCompiler keysCompiler).Create 0 "a" "avro" []).2.db "a").isSome = true ∧
    34359738368 < 2 ^ uintBits ∧
    itob 34359738368 = none ∧
    ((oneCompiler keysCompiler).Create 0 "a" "avro" []).2.GetVersion "a" 34359738368 =
      .panic "index out of range" := by
  refine ⟨rfl, by decide, by decide, rfl⟩

/-! ## The status of an error response -/

/-- C17: for an error `e` of the service, bare or in the wrapper of the server,
`errorEncoder` writes 404 for ErrSchemaDoesNotExist, 409 for ErrSchemaExists, 422 for
ErrSchemaIdRequired, ErrSchemaTypeRequired and ErrSchemaTypeUnknown, and 500 for any
other plain error; a wrapper inside the wrapper also gives 500. -/
theorem errorEncoder_status (e : Error) (d d2 : String) (err : transport.Err) :
    (transport.errorEncoder (.plain e)).status = transport.specStatus e ∧
    (transport.errorEncoder (.transportError d (.plain e))).status =
      transport.specStatus e ∧
    (transport.errorEncoder (.transportError d (.transportError d2 err))).status = 500 := by
  refine ⟨?_, ?_, rfl⟩ <;> cases e <;> rfl

/-- C18 (fails on the code): only the decoder error `io.EOF`, the one of an empty body, is
answered with 400. Any other error of the decoder, such as `io.ErrUnexpectedEOF` for a
truncated document or a `*json.SyntaxError`, is a plain error different from `io.EOF`, and
the response to a Create or an Update request has status 500. -/
theorem malformed_body_status (DecodeC : Bytes → Except transport.Err transport.createRequest)
    (DecodeU : Bytes → Except transport.Err Def) (id : String) (body : Bytes) (msg : String)
    (hc : DecodeC body = .error (.plain (.other msg)))
    (hu : DecodeU body = .error (.plain (.other msg))) :
    (transport.decodeFailure (transport.decodeCreateRequest DecodeC body)).map
      (fun r => r.status) = some 500 ∧
    (transport.decodeFailure (transport.decodeUpdateRequest DecodeU id body)).map
      (fun r => r.status) = some 500 := by
  simp [transport.decodeFailure, transport.decodeCreateRequest, transport.decodeUpdateRequest,
    hc, hu, transport.errorEncoder, transport.unpack, transport.StatusInternalServerError]

theorem malformed_body_status_witness :
    (transport.decodeFailure (transport.decodeCreateRequest
      (fun b => if b = [] then .error .EOF else .error (.plain (.other "unexpected EOF")))
      [123, 34, 105, 100, 34, 58])).map (fun r => r.status) = some 500 ∧
    (transport.decodeFailure (transport.decodeUpdateRequest
      (fun b => if b = [] then .error .EOF else .error (.plain (.other "unexpected EOF")))
      "a" [123, 34, 105, 100, 34, 58])).map (fun r => r.status) = some 500 :=
  malformed_body_status _ _ "a" [123, 34, 105, 100, 34, 58] "unexpected EOF" rfl rfl

/-! ## The order of the keys up to version 255 -/

theorem verKey_lt (a b : Nat) (h : a < b) (hb : b ≤ 255) :
    bytesLt (verKey a) (verKey b) = true := by
  unfold verKey
  split_ifs <;> simp [bytesLt] <;> omega

/-- C20 (fails on the code): the keys of 129 and 256 both have two bytes, 129 is below
256, and the key of 256 sorts before the key of 129. -/
theorem itob_same_length_order_broken :
    itob 129 = some [129, 1] ∧ itob 256 = some [128, 2] ∧
    ([129, 1] : Bytes).length = ([128, 2] : Bytes).length ∧
    bytesLt [129, 1] [128, 2] = false ∧ bytesLt [128, 2] [129, 1] = true := by
  decide

/-- Up to version 255 `itob` preserves the order, whatever the lengths of the keys: for
`k1 < k2 ≤ 255` the key of `k1` sorts before the key of `k2`. The two-byte key of 256
sorts before the two-byte key of 255. -/
theorem itob_order_up_to_255 (k1 k2 : Nat) (h : k1 < k2) (h2 : k2 ≤ 255) :
    (∃ b1 b2, itob k1 = some b1 ∧ itob k2 = some b2 ∧ bytesLt b1 b2 = true) ∧
    (itob 255 = some [255, 1] ∧ itob 256 = some [128, 2] ∧
      bytesLt [128, 2] [255, 1] = true) := by
  refine ⟨⟨verKey k1, verKey k2, itob_verKey k1 (by omega), itob_verKey k2 (by omega),
    verKey_lt k1 k2 h h2⟩, ?_⟩
  decide

/-! ## The byte order is a strict total order -/

theorem bytesLt_irrefl (a : Bytes) : bytesLt a a = false := by
  induction a with
  | nil => rfl
  | cons x xs ih => simp [bytesLt, ih]

theorem bytesLt_trans (a b c : Bytes) (hab : bytesLt a b = true) (hbc : bytesLt b c = true) :
    bytesLt a c = true := by
  induction a generalizing b c with
  | nil =>
    cases b with
    | nil => simp [bytesLt] at hab
    | cons y ys =>
      cases c with
      | nil => simp [bytesLt] at hbc
      | cons z zs => simp [bytesLt]
  | cons x xs ih =>
    cases b with
    | nil => simp [bytesLt] at hab
    | cons y ys =>
      cases c with
      | nil => simp [bytesLt] at hbc
      | cons z zs =>
        simp only [bytesLt] at hab hbc ⊢
        split_ifs at hab hbc ⊢ <;> first | rfl | omega | (exact ih ys zs hab hbc)

theorem bytesLt_total (a b : Bytes) (h : bytesLt a b = false) (hne : a ≠ b) :
    bytesLt b a = true := by
  induction a generalizing b with
  | nil =>
    cases b with
    | nil => exact absurd rfl hne
    | cons y ys => simp [bytesLt] at h
  | cons x xs ih =>
    cases b with
    | nil => simp [bytesLt]
    | cons y ys =>
      by_cases hxy : x < y
      · simp [bytesLt, hxy] at h
      · by_cases hyx : y < x
        · simp [bytesLt, hyx]
        · have he : x = y := by omega
          subst he
          simp only [bytesLt, hxy, if_false] at h ⊢
          exact ih ys h (fun e => hne (by rw [e]))

theorem strBytes_injective (a b : String) (h : strBytes a = strBytes b) : a = b := by
  have hinj : Function.Injective Char.toNat := by
    intro c d hcd
    apply Char.ext
    apply UInt32.ext
    exact hcd
  have := List.map_injective_iff.mpr hinj h
  exact String.ext this

theorem idLt_irrefl (a : String) : idLt a a = false := bytesLt_irrefl _

theorem idLt_trans (a b c : String) (hab : idLt a b = true) (hbc : idLt b c = true) :
    idLt a c = true := bytesLt_trans _ _ _ hab hbc

theorem idLt_total (a b : String) (h : idLt a b = false) (hne : a ≠ b) : idLt b a = true :=
  bytesLt_total _ _ h (fun e => hne (strBytes_injective a b e))

/-! ## Keys of a list in cursor order -/

theorem put_cons_after {κ β : Type} [DecidableEq κ] (lt : κ → κ → Bool) (k k2 : κ)
    (v v2 : β) (rest : List (κ × β)) (hne : k ≠ k2) (hlt : lt k k2 = false) :
    put lt k v ((k2, v2) :: rest) = (k2, v2) :: put lt k v rest := by
  simp [put, hne, hlt]

theorem mem_keys_put {κ β : Type} [DecidableEq κ] (lt : κ → κ → Bool) (k : κ) (v : β)
    (l : List (κ × β)) (x : κ) (hx : x ∈ (put lt k v l).map Prod.fst) :
    x = k ∨ x ∈ l.map Prod.fst := by
  induction l with
  | nil => simpa [put] using hx
  | cons e rest ih =>
    obtain ⟨k', v'⟩ := e
    by_cases h : k = k'
    · subst h
      simpa [put] using hx
    · by_cases h2 : lt k k' = true
      · rw [put_cons_before lt k k' v v' rest h h2] at hx
        simpa using hx
      · rw [put_cons_after lt k k' v v' rest h (by simpa using h2), List.map_cons,
          List.mem_cons] at hx
        rcases hx with hx | hx
        · right; simp [hx]
        · rcases ih hx with h3 | h3
          · left; exact h3
          · right; simp [h3]

theorem pairwise_keys_put {κ β : Type} [DecidableEq κ] (lt : κ → κ → Bool)
    (htrans : ∀ a b c, lt a b = true → lt b c = true → lt a c = true)
    (htot : ∀ a b, lt a b = false → a ≠ b → lt b a = true)
    (k : κ) (v : β) (l : List (κ × β))
    (h : (l.map Prod.fst).Pairwise (fun a b => lt a b = true)) :
    ((put lt k v l).map Prod.fst).Pairwise (fun a b => lt a b = true) := by
  induction l with
  | nil => simp [put]
  | cons e rest ih =>
    obtain ⟨k', v'⟩ := e
    rw [List.map_cons, List.pairwise_cons] at h
    by_cases h1 : k = k'
    · subst h1
      rw [put_cons_same, List.map_cons, List.pairwise_cons]
      exact h
    · by_cases h2 : lt k k' = true
      · rw [put_cons_before lt k k' v v' rest h1 h2, List.map_cons, List.map_cons,
          List.pairwise_cons, List.pairwise_cons]
        refine ⟨?_, h⟩
        intro x hx
        rcases List.mem_cons.mp hx with hx | hx
        · rw [hx]; exact h2
        · exact htrans _ _ _ h2 (h.1 x hx)
      · have h2' : lt k k' = false := by simpa using h2
        rw [put_cons_after lt k k' v v' rest h1 h2', List.map_cons, List.pairwise_cons]
        refine ⟨?_, ih h.2⟩
        intro x hx
        rcases mem_keys_put lt k v rest x hx with hx | hx
        · rw [hx]
          exact htot k k' h2' h1
        · exact h.1 x hx

theorem mem_keys_iff_get {κ β : Type} [DecidableEq κ] (k : κ) (l : List (κ × β)) :
    k ∈ l.map Prod.fst ↔ ∃ v, get k l = some v := by
  induction l with
  | nil => simp [get]
  | cons e rest ih =>
    obtain ⟨k', v'⟩ := e
    by_cases h : k = k'
    · simp [get, h]
    · simp [get, h, ih]

theorem keys_del {κ β : Type} [DecidableEq κ] (k : κ) (l : List (κ × β)) :
    (del k l).map Prod.fst = (l.map Prod.fst).filter (fun a => decide (a ≠ k)) := by
  induction l with
  | nil => rfl
  | cons e rest ih =>
    obtain ⟨k', v'⟩ := e
    by_cases h : k' = k
    · simpa [del, h] using ih
    · simpa [del, h] using ih

/-! ## Results of the write calls -/

theorem Create_outcome (s : service) (now : Nat) (id typ : String) (d : Def) :
    ((s.Create now id typ d).1.isOk = false ∧ (s.Create now id typ d).2 = s) ∨
    (id ≠ "" ∧ typ ≠ "" ∧ get id (s.db.getD []) = none ∧
      ∃ c v dj, get typ s.types = some c ∧ c.Compile d = .ok v ∧
      Value.decodedFields d = some dj ∧
      s.Create now id typ d =
        (.ok { ID := id, Typ := typ, Time := now, Version := 1, Def := d },
          { s with db := some (put idLt id
            (put bytesLt [1] { ID := id, Typ := typ, Time := now, Version := 1, Def := dj } [])
            (s.db.getD [])) })) := by
  obtain ⟨db, types⟩ := s
  by_cases hid : id = ""
  · left; simp [service.Create, hid, Result.isOk]
  by_cases htyp : typ = ""
  · left; simp [service.Create, hid, htyp, Result.isOk]
  cases hreg : get typ types with
  | none => left; simp [service.Create, hid, htyp, hreg, Result.isOk]
  | some c =>
    cases hc : c.Compile d with
    | error e => left; simp [service.Create, hid, htyp, hreg, hc, Result.isOk]
    | ok v =>
      cases hm : Value.decodedFields d with
      | none => left; simp [service.Create, hid, htyp, hreg, hc, marshal, hm, Result.isOk]
      | some dj =>
        cases hg : get id (db.getD []) with
        | some b0 =>
          left
          simp [service.Create, DB.Update, hid, htyp, hreg, hc, marshal, hm, hg, Result.isOk]
        | none =>
          right
          refine ⟨hid, htyp, rfl, c, v, dj, rfl, hc, rfl, ?_⟩
          simp [service.Create, DB.Update, hid, htyp, hreg, hc, marshal, hm, hg, itob_one]

theorem Delete_outcome (s : service) (id : String) :
    ((s.Delete id).1.isOk = false ∧ (s.Delete id).2 = s) ∨
    ∃ root b, s.db = some root ∧ get id root = some b ∧
      s.Delete id = (.ok (), { s with db := some (del id root) }) := by
  obtain ⟨db, types⟩ := s
  cases db with
  | none => left; simp [service.Delete, DB.Update, Result.isOk]
  | some root =>
    cases hg : get id root with
    | none => left; simp [service.Delete, DB.Update, hg, Result.isOk]
    | some b =>
      right
      exact ⟨root, b, rfl, hg, by simp [service.Delete, DB.Update, hg]⟩

theorem types_step (s : service) (op : Op) : (step s op).types = s.types := by
  cases op with
  | create now id typ d =>
    rcases Create_cases s now id typ d with h | ⟨_, _, _, _, _, _, _, _, _, h⟩ <;>
      simp [step, h]
  | update now id d =>
    rcases Update_cases s now id d with
      h | ⟨_, _, _, _, _, _, _, _, _, _, _, _, _, _, _, h⟩ <;>
      simp [step, h]
  | delete id =>
    rcases Delete_cases s id with h | ⟨_, _, h⟩ <;> simp [step, h]

theorem types_run (ops : List Op) (s : service) : (run s ops).types = s.types := by
  induction ops generalizing s with
  | nil => rfl
  | cons op ops ih => rw [run, ih, types_step]

theorem next_shape (f : Nat → Schema) (N : Nat) (h1 : 1 ≤ N) (h256 : N ≤ 256)
    (hf : ∀ v, (f v).Version = v) (x : Schema) (k : Bytes)
    (hx : Bucket.lastValue (shape f N) = some x)
    (hk : itob ((x.Version + 1) % 2 ^ uintBits) = some k) (y : Schema) :
    x = f (lastVer N) ∧ (x.Version + 1) % 2 ^ uintBits = lastVer N + 1 ∧
    put bytesLt k y (shape f N) = shape (Function.update f (lastVer N + 1) y) (nextN N) := by
  rw [lastValue_shape f N h1 h256] at hx
  have hxf : x = f (lastVer N) := (Option.some.inj hx).symm
  have hxv : x.Version = lastVer N := by rw [hxf]; exact hf _
  have hlast : lastVer N ≤ 255 := by unfold lastVer; split_ifs <;> omega
  have hmod : (x.Version + 1) % 2 ^ uintBits = lastVer N + 1 := by
    rw [hxv]
    exact Nat.mod_eq_of_lt (by simp [uintBits]; omega)
  rw [hmod, itob_verKey _ (by omega)] at hk
  have hk' : k = verKey (lastVer N + 1) := (Option.some.inj hk).symm
  exact ⟨hxf, hmod, by rw [hk', put_shape f _ N h1 h256]⟩

theorem nextN_bounds (N : Nat) (h1 : 1 ≤ N) (h256 : N ≤ 256) :
    1 ≤ nextN N ∧ nextN N ≤ 256 ∧
    ∀ v, 1 ≤ v → v ≤ nextN N → v ≠ lastVer N + 1 → v ≤ N := by
  unfold nextN lastVer
  split_ifs <;> refine ⟨by omega, by omega, ?_⟩ <;> intro v _ _ _ <;> omega

/-! ## The store agrees with the caller's record -/

theorem Sound_empty (types : List (String × Compiler)) :
    Sound { db := none, types := types } [] := by
  refine ⟨?_, ?_, ?_⟩
  · intro root h
    cases h
  · intro id _
    rfl
  · intro id b h
    simp [DB.bucket] at h

theorem sorted_getD (db : DB)
    (h : ∀ root, db = some root → (root.map Prod.fst).Pairwise (fun a b => idLt a b = true)) :
    ((db.getD []).map Prod.fst).Pairwise (fun a b => idLt a b = true) := by
  cases db with
  | none => simp
  | some root => exact h root rfl

theorem Sound_create (s : service) (acc : List (String × String)) (now : Nat)
    (id typ : String) (d : Def) (h : Sound s acc) :
    Sound (s.Create now id typ d).2 (track s acc (.create now id typ d)) := by
  rcases Create_outcome s now id typ d with
    ⟨hok, hs⟩ | ⟨hid, htyp, hg, c, w, dj, hreg, hc, hm, hs⟩
  · have ht : track s acc (.create now id typ d) = acc := by simp [track, hok]
    rw [ht, hs]
    exact h
  · have ht : track s acc (.create now id typ d) = (id, typ) :: acc := by
      simp [track, hs, Result.isOk]
    rw [ht, hs]
    obtain ⟨hsorted, hnone, hsome⟩ := h
    refine ⟨?_, ?_, ?_⟩
    · intro root hroot
      have hr := Option.some.inj hroot
      rw [← hr]
      exact pairwise_keys_put idLt idLt_trans idLt_total _ _ _ (sorted_getD s.db hsorted)
    · intro id2 hb2
      simp only [DB.bucket] at hb2
      by_cases hid2 : id2 = id
      · subst hid2
        rw [get_put_self] at hb2
        cases hb2
      · rw [get_put_other _ _ _ _ _ hid2, bucket_getD] at hb2
        simp [get, hid2, hnone id2 hb2]
    · intro id2 b2 hb2
      simp only [DB.bucket] at hb2
      by_cases hid2 : id2 = id
      · subst hid2
        rw [get_put_self] at hb2
        refine ⟨hid, typ, c, 1,
          fun v => { ID := id2, Typ := typ, Time := now, Version := v, Def := dj },
          by simp [get], hreg, le_refl 1, by omega, ?_, ?_⟩
        · rw [← Option.some.inj hb2, shape_one]
          simp [put]
        · intro v
          exact ⟨rfl, rfl, rfl, fun _ _ => ⟨d, w, hc, hm⟩⟩
      · rw [get_put_other _ _ _ _ _ hid2, bucket_getD] at hb2
        obtain ⟨hne, typ2, c2, N, f, hacc, hreg2, h1, h256, hb, hf⟩ := hsome id2 b2 hb2
        exact ⟨hne, typ2, c2, N, f, by simp [get, hid2, hacc], hreg2, h1, h256, hb, hf⟩

theorem Sound_update (s : service) (acc : List (String × String)) (now : Nat)
    (id : String) (d : Def) (h : Sound s acc) :
    Sound (s.Update now id d).2 acc := by
  rcases Update_cases s now id d with
    hs | ⟨root, b, x, c, w, dj, k, hid, hdb, hg, hx, hreg, hc, hm, hk, hs⟩
  · rw [hs]
    exact h
  · rw [hs]
    obtain ⟨hsorted, hnone, hsome⟩ := h
    obtain ⟨_, typ, c0, N, f, hacc, hreg0, h1, h256, hb, hf⟩ :=
      hsome id b (by simp [DB.bucket, hdb, hg])
    subst hb
    obtain ⟨hxf, hmod, hput⟩ := next_shape f N h1 h256 (fun v => (hf v).1) x k hx hk
      { x with Time := now, Version := (x.Version + 1) % 2 ^ uintBits, Def := dj }
    have hxt : x.Typ = typ := by rw [hxf]; exact (hf _).2.2.1
    have hxi : x.ID = id := by rw [hxf]; exact (hf _).2.1
    have hcc : c0 = c := by
      rw [hxt, hreg0] at hreg
      exact Option.some.inj hreg
    obtain ⟨hn1, hn256, hnle⟩ := nextN_bounds N h1 h256
    refine ⟨?_, ?_, ?_⟩
    · intro root2 hroot
      have hr := Option.some.inj hroot
      rw [← hr]
      exact pairwise_keys_put idLt idLt_trans idLt_total _ _ _ (hsorted root hdb)
    · intro id2 hb2
      simp only [DB.bucket] at hb2
      by_cases hid2 : id2 = id
      · subst hid2
        rw [get_put_self] at hb2
        cases hb2
      · rw [get_put_other _ _ _ _ _ hid2] at hb2
        exact hnone id2 (by simp [DB.bucket, hdb, hb2])
    · intro id2 b2 hb2
      simp only [DB.bucket] at hb2
      by_cases hid2 : id2 = id
      · subst hid2
        rw [get_put_self, hput] at hb2
        refine ⟨hid, typ, c0, nextN N, _, hacc, hreg0, hn1, hn256,
          (Option.some.inj hb2).symm, ?_⟩
        intro v
        by_cases hv : v = lastVer N + 1
        · subst hv
          rw [Function.update_same]
          exact ⟨hmod, hxi, hxt, fun _ _ => ⟨d, w, by rw [hcc]; exact hc, hm⟩⟩
        · rw [Function.update_noteq hv]
          exact ⟨(hf v).1, (hf v).2.1, (hf v).2.2.1,
            fun hv1 hvn => (hf v).2.2.2 hv1 (hnle v hv1 hvn hv)⟩
      · rw [get_put_other _ _ _ _ _ hid2] at hb2
        exact hsome id2 b2 (by simp [DB.bucket, hdb, hb2])

theorem Sound_delete (s : service) (acc : List (String × String)) (id : String)
    (h : Sound s acc) : Sound (s.Delete id).2 (track s acc (.delete id)) := by
  rcases Delete_outcome s id with ⟨hok, hs⟩ | ⟨root, b, hdb, hg, hs⟩
  · have ht : track s acc (.delete id) = acc := by simp [track, hok]
    rw [ht, hs]
    exact h
  · have ht : track s acc (.delete id) = del id acc := by simp [track, hs, Result.isOk]
    rw [ht, hs]
    obtain ⟨hsorted, hnone, hsome⟩ := h
    refine ⟨?_, ?_, ?_⟩
    · intro root2 hroot
      have hr := Option.some.inj hroot
      rw [← hr, keys_del]
      exact List.Pairwise.filter _ (hsorted root hdb)
    · intro id2 hb2
      simp only [DB.bucket] at hb2
      by_cases hid2 : id2 = id
      · subst hid2
        exact get_del_self _ _
      · rw [get_del_other _ _ _ hid2] at hb2 ⊢
        exact hnone id2 (by simp [DB.bucket, hdb, hb2])
    · intro id2 b2 hb2
      simp only [DB.bucket] at hb2
      by_cases hid2 : id2 = id
      · subst hid2
        rw [get_del_self] at hb2
        cases hb2
      · rw [get_del_other _ _ _ hid2] at hb2
        obtain ⟨hne, typ2, c2, N, f, hacc, hreg2, h1, h256, hb, hf⟩ :=
          hsome id2 b2 (by simp [DB.bucket, hdb, hb2])
        exact ⟨hne, typ2, c2, N, f, by rw [get_del_other _ _ _ hid2]; exact hacc, hreg2,
          h1, h256, hb, hf⟩

theorem Sound_step (s : service) (acc : List (String × String)) (op : Op)
    (h : Sound s acc) : Sound (step s op) (track s acc op) := by
  cases op with
  | create now id typ d => exact Sound_create s acc now id typ d h
  | update now id d => exact Sound_update s acc now id d h
  | delete id => exact Sound_delete s acc id h

theorem Sound_run (ops : List Op) (s : service) (acc : List (String × String))
    (h : Sound s acc) : Sound (run s ops) (created s acc ops) := by
  induction ops generalizing s acc with
  | nil => exact h
  | cons op ops ih => exact ih (step s op) (track s acc op) (Sound_step s acc op h)

/-! ## List and Get on a store that agrees with the caller's record -/

theorem List_eq (s : service) : s.List = .ok ((s.db.getD []).map Prod.fst) := by
  obtain ⟨db, types⟩ := s
  cases db <;> rfl

theorem mem_List_iff (s : service) (id : String) :
    id ∈ (s.db.getD []).map Prod.fst ↔ ∃ b, DB.bucket s.db id = some b := by
  rw [mem_keys_iff_get, bucket_getD]

theorem Get_unknown (s : service) (id : String) (h : DB.bucket s.db id = none) :
    s.Get id = .err .ErrSchemaDoesNotExist := by
  obtain ⟨db, types⟩ := s
  cases db with
  | none => simp [service.Get, found, Schema.zero]
  | some root =>
    have hg : get id root = none := by simpa [DB.bucket] using h
    simp [service.Get, found, Schema.zero, hg]

theorem lastVer_bounds (N : Nat) (h1 : 1 ≤ N) : 1 ≤ lastVer N ∧ lastVer N ≤ N := by
  unfold lastVer
  split_ifs <;> omega

theorem Get_ok_iff (s : service) (acc : List (String × String)) (h : Sound s acc)
    (id : String) : (∃ x, s.Get id = .ok x) ↔ ∃ b, DB.bucket s.db id = some b := by
  constructor
  · rintro ⟨x, hx⟩
    cases hb : DB.bucket s.db id with
    | none =>
      rw [Get_unknown s id hb] at hx
      cases hx
    | some b => exact ⟨b, rfl⟩
  · rintro ⟨b, hb⟩
    obtain ⟨hne, typ, c, N, f, _, _, h1, h256, hshape, hf⟩ := h.2.2 id b hb
    subst hshape
    cases hdb : s.db with
    | none => simp [DB.bucket, hdb] at hb
    | some root =>
      have hg : get id root = some (shape f N) := by simpa [DB.bucket, hdb] using hb
      exact ⟨f (lastVer N), Get_on_history s id root f N hdb hg h1 h256
        (by rw [(hf _).2.1]; exact hne)⟩

/-- C12: in the store after any sequence of Create, Update and Delete calls on the empty
store, `List()` returns a list without duplicates; an id is in it exactly when it is in
the caller's record (successfully created and not deleted since), and exactly when
`Get(id)` succeeds. -/
theorem List_reflects_live_ids (types : List (String × Compiler)) (ops : List Op) :
    ∃ ids, (run { db := none, types := types } ops).List = .ok ids ∧ ids.Nodup ∧
      ∀ id,
        (id ∈ ids ↔ id ∈ (created { db := none, types := types } [] ops).map Prod.fst) ∧
        (id ∈ ids ↔ ∃ x, (run { db := none, types := types } ops).Get id = .ok x) := by
  have hS := Sound_run ops _ _ (Sound_empty types)
  refine ⟨_, List_eq _, ?_, ?_⟩
  · have hp := sorted_getD _ hS.1
    exact hp.imp (fun {a b} hab e => by rw [e, idLt_irrefl] at hab; cases hab)
  · intro id
    rw [mem_List_iff, Get_ok_iff _ _ hS id, mem_keys_iff_get]
    refine ⟨?_, Iff.rfl⟩
    constructor
    · rintro ⟨b, hb⟩
      obtain ⟨_, typ, _, _, _, hacc, _⟩ := hS.2.2 id b hb
      exact ⟨typ, hacc⟩
    · rintro ⟨typ, hacc⟩
      cases hb : DB.bucket (run { db := none, types := types } ops).db id with
      | none =>
        rw [hS.2.1 id hb] at hacc
        cases hacc
      | some b => exact ⟨b, rfl⟩

/-! ## Stored definitions compile -/

theorem mem_shape (f : Nat → Schema) (N : Nat) (h1 : 1 ≤ N) (h256 : N ≤ 256)
    (e : Bytes × Schema) (he : e ∈ shape f N) :
    ∃ v, 1 ≤ v ∧ v ≤ N ∧ e = (verKey v, f v) := by
  obtain ⟨v, hv, rfl⟩ := List.mem_map.mp he
  exact ⟨v, ((mem_layout N v h1 h256).mp hv).1, ((mem_layout N v h1 h256).mp hv).2, rfl⟩

theorem Validate_on_last (s : service) (id : String) (val : Bytes) (root : Root)
    (f : Nat → Schema) (N : Nat) (c : Compiler)
    (hdb : s.db = some root) (hg : get id root = some (shape f N))
    (h1 : 1 ≤ N) (h : N ≤ 256)
    (hreg : get (f (lastVer N)).Typ s.types = some c) :
    s.Validate id val =
      match c.Compile (f (lastVer N)).Def with
      | .error e => .err e
      | .ok w =>
        match w.Validate val with
        | .error e => .err e
        | .ok errs => .ok errs := by
  simp only [service.Validate, hdb, hg, lastValue_shape f N h1 h, unmarshal, hreg]

/-- C13 (counterexample): the compiler under "avro" accepts a definition only when its
entry holds a Go integer. `Create("a", "avro", {"n": 1})` with the Go integer 1 succeeds;
the stored record, as `Get` returns it, holds the `float64` 1, a definition the compiler
rejects, and `Validate("a", val)` returns the compilation error. -/
theorem stored_def_not_accepted :
    ((oneCompiler intCompiler).Create 0 "a" "avro" [("n", .int 1)]).1 =
      .ok { ID := "a", Typ := "avro", Time := 0, Version := 1, Def := [("n", .int 1)] } ∧
    ((oneCompiler intCompiler).Create 0 "a" "avro" [("n", .int 1)]).2.Get "a" =
      .ok { ID := "a", Typ := "avro", Time := 0, Version := 1,
            Def := [("n", .number "1")] } ∧
    (intCompiler.Compile [("n", .number "1")]).isOk = false ∧
    ((oneCompiler intCompiler).Create 0 "a" "avro" [("n", .int 1)]).2.Validate "a" [] =
      .err (.other "compiler: not an int") := by
  refine ⟨rfl, rfl, rfl, rfl⟩

/-- C13 (amended): in the store after any sequence of Create, Update and Delete calls on
the empty store with the registry `types`, every record of every existing id has a type
with a compiler in `types` and a definition decoded from the document of a definition
this compiler accepted; `Validate` on an existing id finds the compiler of the record
under the cursor's last key. When the compilers of `types` accept the decoded form of
every definition they accept, every stored definition is accepted by the compiler of its
record, and `Validate` compiles without error and returns what the validator returns. -/
theorem stored_defs_compile (types : List (String × Compiler)) (ops : List Op)
    (id : String) (b : Bucket)
    (hb : DB.bucket (run { db := none, types := types } ops).db id = some b) :
    (∀ e ∈ b, ∃ c d0 w, get e.2.Typ types = some c ∧ c.Compile d0 = .ok w ∧
      Value.decodedFields d0 = some e.2.Def) ∧
    (∀ val, ∃ x c, b.lastValue = some x ∧ get x.Typ types = some c ∧
      (run { db := none, types := types } ops).Validate id val =
        match c.Compile x.Def with
        | .error e => .err e
        | .ok w =>
          match w.Validate val with
          | .error e => .err e
          | .ok errs => .ok errs) ∧
    (compilesDecoded types →
      (∀ e ∈ b, ∃ c w, get e.2.Typ types = some c ∧ c.Compile e.2.Def = .ok w) ∧
      ∀ val, ∃ x c w, b.lastValue = some x ∧ get x.Typ types = some c ∧
        c.Compile x.Def = .ok w ∧
        (run { db := none, types := types } ops).Validate id val =
          match w.Validate val with
          | .error e => .err e
          | .ok errs => .ok errs) := by
  have hS := Sound_run ops _ _ (Sound_empty types)
  have ht : (run { db := none, types := types } ops).types = types := types_run ops _
  obtain ⟨hne, typ, c, N, f, _, hreg, h1, h256, hshape, hf⟩ := hS.2.2 id b hb
  rw [ht] at hreg
  subst hshape
  obtain ⟨hl1, hlN⟩ := lastVer_bounds N h1
  have hreg2 : get (f (lastVer N)).Typ types = some c := by
    rw [(hf _).2.2.1]; exact hreg
  have hroot : ∃ root, (run { db := none, types := types } ops).db = some root ∧
      get id root = some (shape f N) := by
    cases hdb : (run { db := none, types := types } ops).db with
    | none => simp [DB.bucket, hdb] at hb
    | some root => exact ⟨root, rfl, by simpa [DB.bucket, hdb] using hb⟩
  obtain ⟨root, hdb, hg⟩ := hroot
  refine ⟨?_, ?_, ?_⟩
  · intro e he
    obtain ⟨v, hv1, hvN, rfl⟩ := mem_shape f N h1 h256 e he
    obtain ⟨d0, w, hw, hd0⟩ := (hf v).2.2.2 hv1 hvN
    exact ⟨c, d0, w, by rw [(hf v).2.2.1]; exact hreg, hw, hd0⟩
  · intro val
    exact ⟨f (lastVer N), c, lastValue_shape f N h1 h256, hreg2,
      Validate_on_last _ id val root f N c hdb hg h1 h256 (by rw [ht]; exact hreg2)⟩
  · intro hjson
    refine ⟨?_, ?_⟩
    · intro e he
      obtain ⟨v, hv1, hvN, rfl⟩ := mem_shape f N h1 h256 e he
      obtain ⟨d0, w, hw, hd0⟩ := (hf v).2.2.2 hv1 hvN
      obtain ⟨w2, hw2⟩ := hjson typ c d0 _ w hreg hw hd0
      exact ⟨c, w2, by rw [(hf v).2.2.1]; exact hreg, hw2⟩
    · intro val
      obtain ⟨d0, w, hw, hd0⟩ := (hf (lastVer N)).2.2.2 hl1 hlN
      obtain ⟨w2, hw2⟩ := hjson typ c d0 _ w hreg hw hd0
      exact ⟨f (lastVer N), c, w2, lastValue_shape f N h1 h256, hreg2, hw2,
        Validate_on_history _ id val root f N c w2 hdb hg h1 h256
          (by rw [ht]; exact hreg2) hw2⟩

theorem keysCompiler_compilesDecoded : compilesDecoded [("avro", keysCompiler)] := by
  intro n c d dj w hn _ _
  by_cases h : n = "avro"
  · have hc : c = keysCompiler := by
      simp [get, h] at hn
      exact hn.symm
    rw [hc]
    exact ⟨_, rfl⟩
  · simp [get, h] at hn

theorem stored_defs_compile_witness :
    let b : Bucket :=
      [([1], { ID := "a", Typ := "avro", Time := 1, Version := 1, Def := [] }),
       ([2], { ID := "a", Typ := "avro", Time := 3, Version := 2,
               Def := [("size", .number "16")] })]
    let s : service := run { db := none, types := [("avro", keysCompiler)] }
      [.create 1 "a" "avro" [], .create 2 "b" "avro" [],
       .update 3 "a" [("size", .int 16)], .delete "b"]
    (∀ e ∈ b, ∃ c d0 w, get e.2.Typ [("avro", keysCompiler)] = some c ∧
      c.Compile d0 = .ok w ∧ Value.decodedFields d0 = some e.2.Def) ∧
    (∀ val, ∃ x c, b.lastValue = some x ∧ get x.Typ [("avro", keysCompiler)] = some c ∧
      s.Validate "a" val =
        match c.Compile x.Def with
        | .error e => .err e
        | .ok w =>
          match w.Validate val with
          | .error e => .err e
          | .ok errs => .ok errs) ∧
    (∀ e ∈ b, ∃ c w, get e.2.Typ [("avro", keysCompiler)] = some c ∧
      c.Compile e.2.Def = .ok w) ∧
    ∀ val, ∃ x c w, b.lastValue = some x ∧ get x.Typ [("avro", keysCompiler)] = some c ∧
      c.Compile x.Def = .ok w ∧
      s.Validate "a" val =
        match w.Validate val with
        | .error e => .err e
        | .ok errs => .ok errs :=
  have h := stored_defs_compile [("avro", keysCompiler)]
    [.create 1 "a" "avro" [], .create 2 "b" "avro" [],
     .update 3 "a" [("size", .int 16)], .delete "b"] "a"
    [([1], { ID := "a", Typ := "avro", Time := 1, Version := 1, Def := [] }),
     ([2], { ID := "a", Typ := "avro", Time := 3, Version := 2,
             Def := [("size", .number "16")] })] rfl
  ⟨h.1, h.2.1, (h.2.2 keysCompiler_compilesDecoded).1,
    (h.2.2 keysCompiler_compilesDecoded).2⟩

/-! ## A key of a history belongs to one version -/

theorem PutUvarint_succ (room x : Nat) :
    PutUvarint (room + 1) x =
      if x < 0x80 then some [x % 256]
      else (PutUvarint room (x >>> 7)).map (fun rest => ((x % 256) ||| 0x80) :: rest) := by
  rw [PutUvarint]

theorem PutUvarint_length (room x : Nat) (l : Bytes) (h : PutUvarint room x = some l) :
    1 ≤ l.length := by
  cases room with
  | zero => simp [PutUvarint] at h
  | succ n =>
    rw [PutUvarint_succ] at h
    split_ifs at h
    · rw [← Option.some.inj h]
      simp
    · cases hp : PutUvarint n (x >>> 7) with
      | none => simp [hp] at h
      | some r =>
        simp only [hp, Option.map_some'] at h
        rw [← Option.some.inj h]
        simp

theorem verKey_length (v : Nat) : (verKey v).length ≤ 2 := by
  unfold verKey
  split_ifs <;> simp

set_option maxRecDepth 100000 in
theorem low_bits_256 : ∀ k < 384, 256 ≤ k → (k % 256) ||| 128 = 128 → k = 256 := by
  decide

theorem itob_eq_verKey (k v : Nat) (hk : k < 2 ^ uintBits) (hv : v ≤ 256)
    (h : itob k = some (verKey v)) : k = v := by
  by_cases hk1 : k < 128
  · rw [itob_small k hk1] at h
    have h' := Option.some.inj h
    unfold verKey at h'
    split_ifs at h' <;> simp at h'
    omega
  · have hmod : k % 2 ^ uintBits = k := Nat.mod_eq_of_lt hk
    have hshift : k >>> 7 = k / 128 := by rw [Nat.shiftRight_eq_div_pow]
    rw [itob, hmod, MaxVarintLen32, PutUvarint_succ 4 k, if_neg (by simpa using hk1),
      PutUvarint_succ 3 (k >>> 7)] at h
    by_cases hy : k >>> 7 < 128
    · rw [if_pos (by simpa using hy)] at h
      simp only [Option.map_some'] at h
      have h' := Option.some.inj h
      unfold verKey at h'
      split_ifs at h' with hv1 hv2
      · simp at h'
      · -- the key of a version 128..255
        have hy1 : k >>> 7 % 256 = 1 := by
          have := (List.cons.inj h').2
          simpa using this
        have hk2 : k < 256 := by rw [hshift] at hy1 hy; omega
        have h2 := itob_two_bytes k hk2 (by omega)
        rw [itob, hmod, MaxVarintLen32, PutUvarint_succ 4 k, if_neg (by simpa using hk1),
          PutUvarint_succ 3 (k >>> 7), if_pos (by simpa using hy)] at h2
        simp only [Option.map_some'] at h2
        have h3 := Option.some.inj h2
        rw [h'] at h3
        have := (List.cons.inj h3).1
        omega
      · -- the key of version 256
        have hy2 : k >>> 7 % 256 = 2 := by
          have := (List.cons.inj h').2
          simpa using this
        have hb0 : (k % 256) ||| 128 = 128 := (List.cons.inj h').1
        have hk3 : 256 ≤ k ∧ k < 384 := by rw [hshift] at hy2 hy; omega
        have := low_bits_256 k hk3.2 hk3.1 hb0
        omega
    · rw [if_neg (by simpa using hy)] at h
      cases hp : PutUvarint 3 (k >>> 7 >>> 7) with
      | none => simp [hp] at h
      | some r =>
        simp only [hp, Option.map_some'] at h
        have hlen := congrArg List.length (Option.some.inj h)
        have h1 := PutUvarint_length _ _ _ hp
        have h2 := verKey_length v
        simp only [List.length_cons] at hlen
        omega

theorem get_map_some (f : Nat → Schema) (l : List Nat) (key : Bytes) (x : Schema)
    (h : get key (l.map (fun w => (verKey w, f w))) = some x) :
    ∃ v ∈ l, verKey v = key ∧ f v = x := by
  induction l with
  | nil => simp [get] at h
  | cons a rest ih =>
    by_cases ha : key = verKey a
    · have : f a = x := by simpa [get, ha] using h
      exact ⟨a, List.mem_cons_self _ _, ha.symm, this⟩
    · have h' : get key (rest.map (fun w => (verKey w, f w))) = some x := by
        simpa [get, ha] using h
      obtain ⟨v, hv, hk, hx⟩ := ih h'
      exact ⟨v, List.mem_cons_of_mem _ hv, hk, hx⟩

theorem GetVersion_ok (s : service) (id : String) (k : Nat) (x : Schema)
    (h : s.GetVersion id k = .ok x) :
    ∃ root b key, s.db = some root ∧ get id root = some b ∧ itob k = some key ∧
      get key b = some x := by
  obtain ⟨db, types⟩ := s
  cases db with
  | none => simp [service.GetVersion, found, Schema.zero] at h
  | some root =>
    cases hg : get id root with
    | none => simp [service.GetVersion, found, Schema.zero, hg] at h
    | some b =>
      cases hk : itob k with
      | none => simp [service.GetVersion, found, hg, hk] at h
      | some key =>
        cases hx : get key b with
        | none => simp [service.GetVersion, found, Schema.zero, hg, hk, hx] at h
        | some y =>
          simp only [service.GetVersion, hg, hk, hx, found] at h
          split_ifs at h
          cases h
          exact ⟨root, b, key, rfl, hg, rfl, hx⟩

/-- C16: in the store after any sequence of Create, Update and Delete calls on the empty
store, a record that `GetVersion(id, k)` returns (`k` in the range of `uint`) has
`ID = id`, `Version = k` and the type that the caller's record holds for `id`: the one
passed to the `Create` call that created it. -/
theorem stored_record_identity (types : List (String × Compiler)) (ops : List Op)
    (id : String) (k : Nat) (x : Schema) (hk : k < 2 ^ uintBits)
    (hx : (run { db := none, types := types } ops).GetVersion id k = .ok x) :
    x.ID = id ∧ x.Version = k ∧
    get id (created { db := none, types := types } [] ops) = some x.Typ := by
  have hS := Sound_run ops _ _ (Sound_empty types)
  obtain ⟨root, b, key, hdb, hg, hkey, hget⟩ := GetVersion_ok _ id k x hx
  obtain ⟨_, typ, c, N, f, hacc, _, h1, h256, hshape, hf⟩ :=
    hS.2.2 id b (by simp [DB.bucket, hdb, hg])
  subst hshape
  obtain ⟨v, hv, hvk, hfx⟩ := get_map_some f (layout N) key x hget
  have hvN := (mem_layout N v h1 h256).mp hv
  have hkv : k = v := itob_eq_verKey k v hk (by omega) (by rw [hkey, hvk])
  rw [← hfx, hkv]
  exact ⟨(hf v).2.1, (hf v).1, by rw [(hf v).2.2.1]; exact hacc⟩

theorem stored_record_identity_witness :
    ({ ID := "a", Typ := "avro", Time := 3, Version := 2,
       Def := [("type", .string "int")] } : Schema).ID = "a" ∧
    ({ ID := "a", Typ := "avro", Time := 3, Version := 2,
       Def := [("type", .string "int")] } : Schema).Version = 2 ∧
    get "a" (created { db := none, types := [("avro", keysCompiler)] } []
      [.create 1 "a" "avro" [], .create 2 "b" "avro" [],
       .update 3 "a" [("type", .string "int")], .delete "b"]) =
      some ({ ID := "a", Typ := "avro", Time := 3, Version := 2,
              Def := [("type", .string "int")] } : Schema).Typ :=
  stored_record_identity [("avro", keysCompiler)]
    [.create 1 "a" "avro" [], .create 2 "b" "avro" [],
     .update 3 "a" [("type", .string "int")], .delete "b"] "a" 2 _ (by decide) rfl

/-! ## The sorted names of the registry -/

theorem mem_insertStr (a x : String) (l : Strings) :
    x ∈ insertStr a l ↔ x = a ∨ x ∈ l := by
  induction l with
  | nil => simp [insertStr]
  | cons b rest ih =>
    by_cases h : idLt b a = true
    · simp only [insertStr, h, if_true, List.mem_cons, ih]
      tauto
    · simp only [insertStr, h, Bool.false_eq_true, if_false, List.mem_cons]

theorem mem_sortStrings (x : String) (l : Strings) : x ∈ sortStrings l ↔ x ∈ l := by
  induction l with
  | nil => simp [sortStrings]
  | cons a rest ih => simp [sortStrings, mem_insertStr, ih]

theorem pairwise_insertStr (a : String) (l : Strings) (ha : a ∉ l)
    (h : l.Pairwise (fun x y => idLt x y = true)) :
    (insertStr a l).Pairwise (fun x y => idLt x y = true) := by
  induction l with
  | nil => simp [insertStr]
  | cons b rest ih =>
    rw [List.pairwise_cons] at h
    have hab : a ≠ b := fun e => ha (by simp [e])
    have har : a ∉ rest := fun e => ha (List.mem_cons_of_mem _ e)
    by_cases hlt : idLt b a = true
    · simp only [insertStr, hlt, if_true, List.pairwise_cons]
      refine ⟨?_, ih har h.2⟩
      intro x hx
      rcases (mem_insertStr a x rest).mp hx with hx | hx
      · rw [hx]; exact hlt
      · exact h.1 x hx
    · simp only [insertStr, hlt, Bool.false_eq_true, if_false, List.pairwise_cons]
      have hba : idLt a b = true := idLt_total b a (by simpa using hlt) (fun e => hab e.symm)
      refine ⟨?_, h⟩
      intro x hx
      rcases List.mem_cons.mp hx with hx | hx
      · rw [hx]; exact hba
      · exact idLt_trans _ _ _ hba (h.1 x hx)

theorem pairwise_sortStrings (l : Strings) (h : l.Nodup) :
    (sortStrings l).Pairwise (fun x y => idLt x y = true) := by
  induction l with
  | nil => simp [sortStrings]
  | cons a rest ih =>
    rw [List.nodup_cons] at h
    exact pairwise_insertStr a _ (fun e => h.1 ((mem_sortStrings a rest).mp e)) (ih h.2)

theorem nodup_of_sorted (l : Strings) (h : l.Pairwise (fun x y => idLt x y = true)) :
    l.Nodup :=
  h.imp (fun {a b} hab e => by rw [e, idLt_irrefl] at hab; cases hab)

theorem sorted_ext (l1 l2 : Strings) (h1 : l1.Pairwise (fun x y => idLt x y = true))
    (h2 : l2.Pairwise (fun x y => idLt x y = true)) (hmem : ∀ x, x ∈ l1 ↔ x ∈ l2) :
    l1 = l2 := by
  haveI : IsAntisymm String (fun x y => idLt x y = true) :=
    ⟨fun a b hab hba => by
      have := idLt_trans a b a hab hba
      rw [idLt_irrefl] at this
      cases this⟩
  exact List.eq_of_perm_of_sorted
    ((List.perm_ext_iff_of_nodup (nodup_of_sorted l1 h1) (nodup_of_sorted l2 h2)).mpr hmem)
    h1 h2

theorem mem_keys_Register (s : service) (n : String) (c : Compiler) (x : String) :
    x ∈ (s.Register n c).types.map Prod.fst ↔ x = n ∨ x ∈ s.types.map Prod.fst := by
  simp only [service.Register, List.map_cons, List.mem_cons, keys_del, List.mem_filter]
  by_cases h : x = n
  · simp [h]
  · simp [h]

theorem nodup_keys_Register (s : service) (n : String) (c : Compiler)
    (h : (s.types.map Prod.fst).Nodup) : ((s.Register n c).types.map Prod.fst).Nodup := by
  simp only [service.Register, List.map_cons, keys_del, List.nodup_cons]
  exact ⟨by simp [List.mem_filter], h.filter _⟩

theorem registerAll_keys (regs : List (String × Compiler)) (s : service)
    (h : (s.types.map Prod.fst).Nodup) :
    ((registerAll s regs).types.map Prod.fst).Nodup ∧
    ∀ x, x ∈ (registerAll s regs).types.map Prod.fst ↔
      x ∈ s.types.map Prod.fst ∨ x ∈ regs.map Prod.fst := by
  induction regs generalizing s with
  | nil => exact ⟨h, fun x => by simp [registerAll]⟩
  | cons r rest ih =>
    obtain ⟨n, c⟩ := r
    obtain ⟨hn, hm⟩ := ih (s.Register n c) (nodup_keys_Register s n c h)
    refine ⟨hn, ?_⟩
    intro x
    rw [registerAll, hm x, mem_keys_Register]
    simp only [List.map_cons, List.mem_cons]
    tauto

/-- C15: after any sequence of `Register` calls on a new service, `Types()` is in
strictly increasing order of the names' bytes, so without duplicates, and holds exactly
the names registered; registering a name again leaves `Types()` as it is and makes the
new compiler the one found under the name. -/
theorem Types_sorted_registered (db : DB) (regs : List (String × Compiler)) :
    ((registerAll (NewService db) regs).Types).Pairwise (fun a b => idLt a b = true) ∧
    ((registerAll (NewService db) regs).Types).Nodup ∧
    (∀ n, n ∈ (registerAll (NewService db) regs).Types ↔ n ∈ regs.map Prod.fst) ∧
    ∀ n c, n ∈ regs.map Prod.fst →
      ((registerAll (NewService db) regs).Register n c).Types =
        (registerAll (NewService db) regs).Types ∧
      get n ((registerAll (NewService db) regs).Register n c).types = some c := by
  obtain ⟨hn, hm⟩ := registerAll_keys regs (NewService db) (by simp [NewService])
  have hs := pairwise_sortStrings _ hn
  have hmem : ∀ n, n ∈ (registerAll (NewService db) regs).Types ↔ n ∈ regs.map Prod.fst := by
    intro n
    rw [service.Types, mem_sortStrings, hm n]
    simp [NewService]
  refine ⟨hs, nodup_of_sorted _ hs, hmem, ?_⟩
  intro n c hreg
  refine ⟨?_, by simp [service.Register, get]⟩
  apply sorted_ext _ _
    (pairwise_sortStrings _ (nodup_keys_Register _ n c hn)) hs
  intro x
  rw [mem_sortStrings, mem_sortStrings, mem_keys_Register]
  constructor
  · rintro (hx | hx)
    · rw [hx, ← mem_sortStrings]
      exact (hmem n).mpr hreg
    · exact hx
  · intro hx
    exact Or.inr hx

theorem Types_sorted_registered_witness :
    ((registerAll (NewService none)
      [("json-schema", keysCompiler), ("avro", keysCompiler),
       ("json-schema", rejectCompiler)]).Types).Pairwise (fun a b => idLt a b = true) ∧
    ((registerAll (NewService none)
      [("json-schema", keysCompiler), ("avro", keysCompiler),
       ("json-schema", rejectCompiler)]).Types).Nodup ∧
    (∀ n, n ∈ (registerAll (NewService none)
      [("json-schema", keysCompiler), ("avro", keysCompiler),
       ("json-schema", rejectCompiler)]).Types ↔
      n ∈ ([("json-schema", keysCompiler), ("avro", keysCompiler),
            ("json-schema", rejectCompiler)] : List (String × Compiler)).map Prod.fst) ∧
    ∀ n c, n ∈ ([("json-schema", keysCompiler), ("avro", keysCompiler),
            ("json-schema", rejectCompiler)] : List (String × Compiler)).map Prod.fst →
      ((registerAll (NewService none)
        [("json-schema", keysCompiler), ("avro", keysCompiler),
         ("json-schema", rejectCompiler)]).Register n c).Types =
        (registerAll (NewService none)
          [("json-schema", keysCompiler), ("avro", keysCompiler),
           ("json-schema", rejectCompiler)]).Types ∧
      get n ((registerAll (NewService none)
        [("json-schema", keysCompiler), ("avro", keysCompiler),
         ("json-schema", rejectCompiler)]).Register n c).types = some c :=
  Types_sorted_registered none
    [("json-schema", keysCompiler), ("avro", keysCompiler), ("json-schema", rejectCompiler)]

/-! ## Two Updates on the latest version 255 -/

theorem GetVersion_257_absent (s : service) (id : String) (root : Root) (f : Nat → Schema)
    (N : Nat) (hdb : s.db = some root) (hg : get id root = some (shape f N))
    (h1 : 1 ≤ N) (h256 : N ≤ 256) :
    s.GetVersion id 257 = .err .ErrSchemaDoesNotExist := by
  have hkey : itob 257 = some [129, 2] := by decide
  have hnone : get ([129, 2] : Bytes) (shape f N) = none := by
    cases hget : get ([129, 2] : Bytes) (shape f N) with
    | none => rfl
    | some x =>
      obtain ⟨v, hv, hvk, _⟩ := get_map_some f (layout N) [129, 2] x hget
      have hvN := (mem_layout N v h1 h256).mp hv
      have := itob_eq_verKey 257 v (by decide) (by omega) (by rw [hkey, hvk])
      omega
  simp [service.GetVersion, hdb, hg, hkey, hnone, found, Schema.zero]

theorem two_updates_at_255 (t1 t2 : Nat) (d1 d2 : Def)
    (hm1 : Value.decodedFields d1 = some d1) (hm2 : Value.decodedFields d2 = some d2) :
    (createThenUpdate (oneCompiler keysCompiler) "a" "avro" defNo 254).2.Get "a" =
      .ok { ID := "a", Typ := "avro", Time := 254, Version := 255, Def := defNo 254 } ∧
    ((createThenUpdate (oneCompiler keysCompiler) "a" "avro" defNo 254).2.Update t1 "a"
        d1).1 =
      .ok { ID := "a", Typ := "avro", Time := t1, Version := 256, Def := d1 } ∧
    (((createThenUpdate (oneCompiler keysCompiler) "a" "avro" defNo 254).2.Update t1 "a"
        d1).2.Update t2 "a" d2).1 =
      .ok { ID := "a", Typ := "avro", Time := t2, Version := 256, Def := d2 } ∧
    (((createThenUpdate (oneCompiler keysCompiler) "a" "avro" defNo 254).2.Update t1 "a"
        d1).2.Update t2 "a" d2).2.GetVersion "a" 256 =
      .ok { ID := "a", Typ := "avro", Time := t2, Version := 256, Def := d2 } ∧
    (((createThenUpdate (oneCompiler keysCompiler) "a" "avro" defNo 254).2.Update t1 "a"
        d1).2.Update t2 "a" d2).2.GetVersion "a" 257 = .err .ErrSchemaDoesNotExist := by
  have h254 : createThenUpdate (oneCompiler keysCompiler) "a" "avro" defNo 254 =
      (.ok (written "a" "avro" defNo 255),
        { oneCompiler keysCompiler with
          db := some [("a", shape (written "a" "avro" defNo) 255)] }) :=
    createThenUpdate_state (oneCompiler keysCompiler) "a" "avro" defNo
      keysCompiler rfl (by decide) (by decide) rfl (fun _ => ⟨_, rfl⟩) (fun _ => rfl) 254
      (by omega)
  have hl5 : lastVer 255 = 255 := by decide
  have hn5 : nextN 255 = 256 := by decide
  have hl6 : lastVer 256 = 255 := by decide
  have hn6 : nextN 256 = 256 := by decide
  have hu1 : service.Update
      { oneCompiler keysCompiler with
        db := some [("a", shape (written "a" "avro" defNo) 255)] } t1 "a" d1 =
      (.ok { ID := "a", Typ := "avro", Time := t1, Version := 256, Def := d1 },
        { oneCompiler keysCompiler with
          db := some [("a", shape (Function.update (written "a" "avro" defNo) 256
            { ID := "a", Typ := "avro", Time := t1, Version := 256, Def := d1 }) 256)] }) := by
    have h := Update_on_history
      { oneCompiler keysCompiler with
        db := some [("a", shape (written "a" "avro" defNo) 255)] }
      t1 "a" d1 d1 [("a", shape (written "a" "avro" defNo) 255)]
      (written "a" "avro" defNo) 255 keysCompiler _ (by decide) rfl (by simp [get])
      (by omega) (by omega) (by rw [hl5]; rfl) (by rw [hl5]; rfl) rfl hm1
    rw [hl5, hn5, put_cons_same] at h
    exact h
  have hu2 : service.Update
      { oneCompiler keysCompiler with
        db := some [("a", shape (Function.update (written "a" "avro" defNo) 256
          { ID := "a", Typ := "avro", Time := t1, Version := 256, Def := d1 }) 256)] }
      t2 "a" d2 =
      (.ok { ID := "a", Typ := "avro", Time := t2, Version := 256, Def := d2 },
        { oneCompiler keysCompiler with
          db := some [("a", shape (Function.update
            (Function.update (written "a" "avro" defNo) 256
              { ID := "a", Typ := "avro", Time := t1, Version := 256, Def := d1 }) 256
            { ID := "a", Typ := "avro", Time := t2, Version := 256, Def := d2 }) 256)] }) := by
    have h := Update_on_history
      { oneCompiler keysCompiler with
        db := some [("a", shape (Function.update (written "a" "avro" defNo) 256
          { ID := "a", Typ := "avro", Time := t1, Version := 256, Def := d1 }) 256)] }
      t2 "a" d2 d2 [("a", shape (Function.update (written "a" "avro" defNo) 256
          { ID := "a", Typ := "avro", Time := t1, Version := 256, Def := d1 }) 256)]
      (Function.update (written "a" "avro" defNo) 256
          { ID := "a", Typ := "avro", Time := t1, Version := 256, Def := d1 })
      256 keysCompiler _ (by decide) rfl (by simp [get]) (by omega) (by omega)
      (by rw [hl6]; rfl) (by rw [hl6]; rfl) rfl hm2
    rw [hl6, hn6, put_cons_same] at h
    exact h
  rw [h254]
  refine ⟨?_, ?_, ?_, ?_, ?_⟩
  · rw [Get_on_history _ "a" [("a", shape (written "a" "avro" defNo) 255)]
      (written "a" "avro" defNo) 255 rfl (by simp [get]) (by omega) (by omega) (by decide)]
    rfl
  · rw [hu1]
  · rw [hu1, hu2]
  · rw [hu1, hu2]
    have h := GetVersion_on_history
      { oneCompiler keysCompiler with
        db := some [("a", shape (Function.update
          (Function.update (written "a" "avro" defNo) 256
            { ID := "a", Typ := "avro", Time := t1, Version := 256, Def := d1 }) 256
          { ID := "a", Typ := "avro", Time := t2, Version := 256, Def := d2 }) 256)] }
      "a" _ (Function.update
          (Function.update (written "a" "avro" defNo) 256
            { ID := "a", Typ := "avro", Time := t1, Version := 256, Def := d1 }) 256
          { ID := "a", Typ := "avro", Time := t2, Version := 256, Def := d2 })
      256 256 rfl (by simp [get]) (by omega) (by omega) (by omega) (by omega)
      (by rw [Function.update_same]; exact (by decide : ("a" : String) ≠ ""))
    rw [Function.update_same] at h
    exact h
  · rw [hu1, hu2]
    exact GetVersion_257_absent
      { oneCompiler keysCompiler with
        db := some [("a", shape (Function.update
          (Function.update (written "a" "avro" defNo) 256
            { ID := "a", Typ := "avro", Time := t1, Version := 256, Def := d1 }) 256
          { ID := "a", Typ := "avro", Time := t2, Version := 256, Def := d2 }) 256)] }
      "a"
      [("a", shape (Function.update
          (Function.update (written "a" "avro" defNo) 256
            { ID := "a", Typ := "avro", Time := t1, Version := 256, Def := d1 }) 256
          { ID := "a", Typ := "avro", Time := t2, Version := 256, Def := d2 }) 256)]
      (Function.update
          (Function.update (written "a" "avro" defNo) 256
            { ID := "a", Typ := "avro", Time := t1, Version := 256, Def := d1 }) 256
          { ID := "a", Typ := "avro", Time := t2, Version := 256, Def := d2 })
      256 rfl (by rw [get, if_pos rfl]) (by omega) (by omega)

/-- C19 (fails on the code): the id "a" has the latest version 255 (Create and 254
Updates). Two Updates, with the definitions `A` and `B`, run as two write transactions in
commit order. Whichever commits first returns version 256; the other returns version
256 again, not 257; afterwards version 256 holds the definition of the second and there
is no version 257: the first update is lost. -/
theorem concurrent_updates_collide :
    ((createThenUpdate (oneCompiler keysCompiler) "a" "avro" defNo 254).2.Get "a" =
        .ok { ID := "a", Typ := "avro", Time := 254, Version := 255, Def := defNo 254 } ∧
      ((createThenUpdate (oneCompiler keysCompiler) "a" "avro" defNo 254).2.Update 255 "a"
          [("by", .string "A")]).1 =
        .ok { ID := "a", Typ := "avro", Time := 255, Version := 256,
              Def := [("by", .string "A")] } ∧
      (((createThenUpdate (oneCompiler keysCompiler) "a" "avro" defNo 254).2.Update 255 "a"
          [("by", .string "A")]).2.Update 256 "a" [("by", .string "B")]).1 =
        .ok { ID := "a", Typ := "avro", Time := 256, Version := 256,
              Def := [("by", .string "B")] } ∧
      (((createThenUpdate (oneCompiler keysCompiler) "a" "avro" defNo 254).2.Update 255 "a"
          [("by", .string "A")]).2.Update 256 "a" [("by", .string "B")]).2.GetVersion "a"
          256 =
        .ok { ID := "a", Typ := "avro", Time := 256, Version := 256,
              Def := [("by", .string "B")] } ∧
      (((createThenUpdate (oneCompiler keysCompiler) "a" "avro" defNo 254).2.Update 255 "a"
          [("by", .string "A")]).2.Update 256 "a" [("by", .string "B")]).2.GetVersion "a"
          257 = .err .ErrSchemaDoesNotExist) ∧
    ((createThenUpdate (oneCompiler keysCompiler) "a" "avro" defNo 254).2.Get "a" =
        .ok { ID := "a", Typ := "avro", Time := 254, Version := 255, Def := defNo 254 } ∧
      ((createThenUpdate (oneCompiler keysCompiler) "a" "avro" defNo 254).2.Update 255 "a"
          [("by", .string "B")]).1 =
        .ok { ID := "a", Typ := "avro", Time := 255, Version := 256,
              Def := [("by", .string "B")] } ∧
      (((createThenUpdate (oneCompiler keysCompiler) "a" "avro" defNo 254).2.Update 255 "a"
          [("by", .string "B")]).2.Update 256 "a" [("by", .string "A")]).1 =
        .ok { ID := "a", Typ := "avro", Time := 256, Version := 256,
              Def := [("by", .string "A")] } ∧
      (((createThenUpdate (oneCompiler keysCompiler) "a" "avro" defNo 254).2.Update 255 "a"
          [("by", .string "B")]).2.Update 256 "a" [("by", .string "A")]).2.GetVersion "a"
          256 =
        .ok { ID := "a", Typ := "avro", Time := 256, Version := 256,
              Def := [("by", .string "A")] } ∧
      (((createThenUpdate (oneCompiler keysCompiler) "a" "avro" defNo 254).2.Update 255 "a"
          [("by", .string "B")]).2.Update 256 "a" [("by", .string "A")]).2.GetVersion "a"
          257 = .err .ErrSchemaDoesNotExist) :=
  ⟨two_updates_at_255 255 256 [("by", .string "A")] [("by", .string "B")] rfl rfl,
    two_updates_at_255 255 256 [("by", .string "B")] [("by", .string "A")] rfl rfl⟩

/-! ## Decoded definitions decode to themselves -/

mutual

theorem Value.decoded_idem : ∀ (v w : Value), Value.decoded v = some w →
    Value.decoded w = some w
  | .null, w, h => by
    simp only [Value.decoded, Option.some.injEq] at h
    subst h
    rfl
  | .bool b, w, h => by
    simp only [Value.decoded, Option.some.injEq] at h
    subst h
    rfl
  | .number lit, w, h => by
    simp only [Value.decoded, Option.some.injEq] at h
    subst h
    rfl
  | .string s, w, h => by
    simp only [Value.decoded, Option.some.injEq] at h
    subst h
    rfl
  | .int n, w, h => by
    simp only [Value.decoded, Option.some.injEq] at h
    subst h
    rfl
  | .unsupported, w, h => by
    simp [Value.decoded] at h
  | .array xs, w, h => by
    simp only [Value.decoded] at h
    cases hxs : Value.decodedAll xs with
    | none => simp [hxs] at h
    | some ys =>
      simp only [hxs, Option.map_some', Option.some.injEq] at h
      subst h
      simp only [Value.decoded, Value.decodedAll_idem xs ys hxs, Option.map_some']
  | .object kv, w, h => by
    simp only [Value.decoded] at h
    cases hkv : Value.decodedFields kv with
    | none => simp [hkv] at h
    | some ws =>
      simp only [hkv, Option.map_some', Option.some.injEq] at h
      subst h
      simp only [Value.decoded, Value.decodedFields_idem kv ws hkv, Option.map_some']

theorem Value.decodedAll_idem : ∀ (xs ys : List Value), Value.decodedAll xs = some ys →
    Value.decodedAll ys = some ys
  | [], ys, h => by
    simp only [Value.decodedAll, Option.some.injEq] at h
    subst h
    rfl
  | x :: xs, ys, h => by
    simp only [Value.decodedAll] at h
    cases hx : Value.decoded x with
    | none => simp [hx] at h
    | some y =>
      cases hxs : Value.decodedAll xs with
      | none => simp [hx, hxs] at h
      | some zs =>
        simp only [hx, hxs, Option.some.injEq] at h
        subst h
        simp only [Value.decodedAll, Value.decoded_idem x y hx,
          Value.decodedAll_idem xs zs hxs]

theorem Value.decodedFields_idem : ∀ (kv ws : List (String × Value)),
    Value.decodedFields kv = some ws → Value.decodedFields ws = some ws
  | [], ws, h => by
    simp only [Value.decodedFields, Option.some.injEq] at h
    subst h
    rfl
  | (k, v) :: rest, ws, h => by
    simp only [Value.decodedFields] at h
    cases hv : Value.decoded v with
    | none => simp [hv] at h
    | some w =>
      cases hr : Value.decodedFields rest with
      | none => simp [hv, hr] at h
      | some zs =>
        simp only [hv, hr, Option.some.injEq] at h
        subst h
        simp only [Value.decodedFields, Value.decoded_idem v w hv,
          Value.decodedFields_idem rest zs hr]

end

end SchemaRegistry
